import Mathlib

/-! Batch operating system simulation (phase 2): execution engine.

A shallow embedding of `src/phase2.cpp`: the word-addressed memory `M`, the
address translator `addressMap`, the fault handler `handlePageFault`, the
interrupt controller `masterMode`, the I/O operations `read` and `write`, and
one iteration of the fetch/execute loop of `executeUserProgram`.

Conventions of the embedding.

* C++ `int` values are `Int`; the counters are never near the 32-bit limits
  (signed overflow is undefined in C++), so no wrap-around is modelled.
  C++ `/` and `%` on `int` truncate: they are `Int.tdiv` and `Int.tmod`.
* A `char` is a `Char`; a memory word `char[4]` is a `Word`.
* An access outside `M[0..299]`, an exception that nothing catches, and a
  frame search that never ends are the three ways the program fails to
  return; functions that can do so return `Except Fault _`.
* `outputFile` is the list of records written so far, `inputFile` the list of
  lines not yet consumed, `rand()` a list of the values it will return.
-/

namespace BatchOS

/-! ## Constants -/

abbrev MEMORY_SIZE : Nat := 300
abbrev WORD_SIZE : Nat := 4
abbrev TIME_QUANTUM : Nat := 10
abbrev PAGE_SIZE : Nat := 10

/-! ## Words and memory -/

/-- One memory word, `char[WORD_SIZE]`. -/
structure Word where
  c0 : Char
  c1 : Char
  c2 : Char
  c3 : Char
  deriving DecidableEq, Repr

/-- The word of four null characters (the content of memory after `initialize`). -/
def nullWord : Word := ⟨'\x00', '\x00', '\x00', '\x00'⟩

/-- The character `w[j]`, for `j < 4`. -/
def Word.get (w : Word) (j : Nat) : Char :=
  match j with
  | 0 => w.c0
  | 1 => w.c1
  | 2 => w.c2
  | _ => w.c3

/-- The assignment `w[j] = c`, for `j < 4`. -/
def Word.set (w : Word) (j : Nat) (c : Char) : Word :=
  match j with
  | 0 => { w with c0 := c }
  | 1 => { w with c1 := c }
  | 2 => { w with c2 := c }
  | _ => { w with c3 := c }

/-- The four characters of a word, in order. -/
def Word.toList (w : Word) : List Char := [w.c0, w.c1, w.c2, w.c3]

/-- Main memory `char M[MEMORY_SIZE][WORD_SIZE]`. -/
abbrev Memory := Fin MEMORY_SIZE → Word

/-- The ways the program fails to return normally. -/
inductive Fault where
  /-- An index outside `M[0..MEMORY_SIZE-1]` (undefined behaviour in C++). -/
  | memoryOutOfRange
  /-- An exception thrown by `stoi` that no handler catches. -/
  | uncaughtException
  /-- The frame search of `handlePageFault` consumed every available `rand()` value. -/
  | frameSearchUnfinished
  deriving DecidableEq, Repr

/-- The index of `M` an `int` address designates, if it is inside the array. -/
def addrIndex (a : Int) : Option (Fin MEMORY_SIZE) :=
  if h : 0 ≤ a ∧ a < 300 then some ⟨a.toNat, by show a.toNat < 300; omega⟩ else none

/-- Reading `M[a]`. -/
def getWord (M : Memory) (a : Int) : Except Fault Word :=
  match addrIndex a with
  | some i => .ok (M i)
  | none => .error .memoryOutOfRange

/-- Overwriting `M[a]`. -/
def setWord (M : Memory) (a : Int) (w : Word) : Except Fault Memory :=
  match addrIndex a with
  | some i => .ok (Function.update M i w)
  | none => .error .memoryOutOfRange

/-! ## Characters, `stoi` and `sprintf` -/

/-- C `isdigit`. -/
def isdigit (c : Char) : Bool := decide (48 ≤ c.toNat) && decide (c.toNat ≤ 57)

/-- C `isspace` in the default locale: space and the five control characters 9..13. -/
def isspace (c : Char) : Bool :=
  decide (c.toNat = 32) || (decide (9 ≤ c.toNat) && decide (c.toNat ≤ 13))

/-- The value of a decimal digit character. -/
def digitVal (c : Char) : Nat := c.toNat - 48

/-- The C string held by a character buffer: the characters before the first null. -/
def cstr (cs : List Char) : List Char := cs.takeWhile (fun c => c ≠ '\x00')

/-- The digit loop of `strtol`: accumulate leading decimal digits, stop at the first other character. -/
def readDigits : Nat → List Char → Nat
  | acc, [] => acc
  | acc, c :: cs => if isdigit c then readDigits (acc * 10 + digitVal c) cs else acc

/-- The characters left after an optional sign. -/
def afterSign (cs : List Char) : List Char :=
  match cs with
  | [] => []
  | c :: rest => if c = '-' ∨ c = '+' then rest else c :: rest

/-- The function `std::stoi` on the characters of a `std::string`: it converts through
`strtol(str.c_str(), ..., 10)`, which skips leading white space, accepts one optional sign and
reads the longest run of digits; `none` stands for the exception thrown when there is no digit
to read (`std::invalid_argument`) or the value does not fit an `int` (`std::out_of_range`). -/
def stoi (str : List Char) : Option Int :=
  let s := (cstr str).dropWhile isspace
  let body := afterSign s
  match body with
  | [] => none
  | d :: _ =>
    if isdigit d then
      let v : Int := if s.head? = some '-' then -(readDigits 0 body : Int) else (readDigits 0 body : Int)
      if -2147483648 ≤ v ∧ v ≤ 2147483647 then some v else none
    else none

/-- The decimal digit character of `d < 10`. -/
def digitChar (d : Nat) : Char := Char.ofNat (48 + d)

/-- The digits of `n`, most significant first, computed with at most `fuel` divisions. -/
def decimalAux : Nat → Nat → List Char
  | 0, _ => []
  | fuel + 1, n =>
    if n < 10 then [digitChar n] else decimalAux fuel (n / 10) ++ [digitChar (n % 10)]

/-- The text `printf("%d")` produces for a non-negative number. -/
def decimal (n : Nat) : List Char := decimalAux (n + 1) n

/-- Copying the bytes `bs` over the start of a word; bytes beyond the fourth are dropped. -/
def overlay (w : Word) (bs : List Char) : Word :=
  match bs with
  | [] => w
  | [a] => { w with c0 := a }
  | [a, b] => { w with c0 := a, c1 := b }
  | [a, b, c] => { w with c0 := a, c1 := b, c2 := c }
  | a :: b :: c :: d :: _ => ⟨a, b, c, d⟩

/-- The effect of `sprintf(M[i], "%d", frame)` on the word `M[i]`: the decimal text of `frame`
and a terminating null are written from its first character on. Every caller passes
`frame < 30`, so at most three bytes are written and the word after `M[i]` is not reached. -/
def sprintfWord (w : Word) (frame : Nat) : Word := overlay w (decimal frame ++ ['\x00'])

/-! ## Machine state -/

/-- Process control block. -/
structure PCB where
  input2_id : Int
  TTL : Int
  TLL : Int
  TTC : Int
  LLC : Int
  deriving DecidableEq, Repr

/-- What has been written to `outputFile`. -/
inductive OutEvent where
  /-- The record of `terminate(0)`: two line ends, then `Terminated Normally. ` and the message. -/
  | normal (reason : String)
  /-- The record of `terminate(errorType)` for `errorType != 0`: two line ends, the error number
  and message, the optional sub-error message, and the line of register and quota values. -/
  | abnormal (errorType : Int) (reason : String) (sub : Option String)
      (IC : Int) (IR : Word) (C : Bool) (R : Word) (TTL TTC TLL LLC : Int)
  /-- One output line written by `write`. -/
  | line (text : List Char)
  deriving DecidableEq, Repr

/-- The line `handlePageFault` prints on the console: allocated frame and virtual address. -/
structure ConsoleEvent where
  frame : Nat
  VA : Int
  deriving DecidableEq, Repr

/-- The fields of `class OS`, with the files replaced by their contents. -/
structure State where
  M : Memory
  IR : Word
  R : Word
  C : Bool
  IC : Int
  SI : Int
  PI : Int
  TI : Int
  PTR : Int
  breakFlag : Bool
  pcb : PCB
  /-- Lines of `inputFile` not yet read. -/
  inputFile : List (List Char)
  /-- Records written to `outputFile`, oldest first. -/
  outputFile : List OutEvent
  /-- Lines printed on `cout` by the fault handler, oldest first. -/
  console : List ConsoleEvent
  /-- The values the coming calls of `rand()` return. -/
  rands : List Nat

/-- The table `errorMessages`. -/
def errorMessages : List String :=
  ["No Error", "Out of Data", "Line Limit Exceeded", "Time Limit Exceeded",
   "Operation Code Error", "Operand Error", "Invalid Page Fault"]

/-- The entry `errorMessages[i]`. -/
def errorMessage (i : Int) : String := errorMessages.getD i.toNat ""

/-- The record `terminate(errorType, subError)` writes in state `s`. -/
def terminateRecord (s : State) (errorType : Int) (subError : Int) : OutEvent :=
  if errorType = 0 then .normal (errorMessage errorType)
  else .abnormal errorType (errorMessage errorType)
    (if subError ≠ -1 then some (errorMessage subError) else none)
    s.IC s.IR s.C s.R s.pcb.TTL s.pcb.TTC s.pcb.TLL s.pcb.LLC

/-- The function `OS::terminate`: append the termination record to the output file. -/
def terminate (s : State) (errorType : Int) (subError : Int) : State :=
  { s with outputFile := s.outputFile ++ [terminateRecord s errorType subError] }

/-- The number of termination records in an output file. -/
def terminationCount (out : List OutEvent) : Nat :=
  (out.filter (fun e => match e with
    | .line _ => false
    | _ => true)).length

/-! ## Address translation -/

/-- The function `OS::addressMap`: the state after the call (only `PI` can differ) and the
returned address. -/
def addressMap (s : State) (VA : Int) : Except Fault (State × Int) :=
  if 0 ≤ VA ∧ VA < 100 then
    match getWord s.M (s.PTR + Int.tdiv VA 10) with
    | .error e => .error e
    | .ok pte =>
      if pte.c0 = '*' then .ok ({ s with PI := 3 }, -1)
      else
        match stoi pte.toList with
        | some frame => .ok (s, frame * 10 + Int.tmod VA 10)
        | none => .ok ({ s with PI := 2 }, -1)
  else .ok ({ s with PI := 2 }, -1)

/-! ## Fault handler and interrupt controller -/

/-- The two-character string `opcode` built from `IR[0]` and `IR[1]`. -/
def opcode (ir : Word) : List Char := [ir.c0, ir.c1]

/-- The two-character operand string built from `IR[2]` and `IR[3]`. -/
def operandStr (ir : Word) : List Char := [ir.c2, ir.c3]

/-- The function `OS::allocateFrame` applied to one value of `rand()`. -/
def allocateFrame (r : Nat) : Nat := r % 30

/-- The loop `do { frame = allocateFrame(); } while (M[frame * 10][0] != 0)`: the frame found and
the `rand()` values left, or `none` when every available value named an occupied frame. -/
def findFrame (M : Memory) : List Nat → Option (Nat × List Nat)
  | [] => none
  | r :: rs =>
    if (M ⟨allocateFrame r * 10, by show r % 30 * 10 < 300; omega⟩).c0 ≠ '\x00' then findFrame M rs
    else some (allocateFrame r, rs)

/-- The function `OS::handlePageFault`. -/
def handlePageFault (s : State) : Except Fault State :=
  if opcode s.IR = ['G', 'D'] ∨ opcode s.IR = ['S', 'R'] then
    match findFrame s.M s.rands with
    | none => .error .frameSearchUnfinished
    | some (frame, rest) =>
      match stoi (operandStr s.IR) with
      | none => .error .uncaughtException
      | some VA =>
        let pteIndex := s.PTR + Int.tdiv VA 10
        match getWord s.M pteIndex with
        | .error e => .error e
        | .ok old =>
          match setWord s.M pteIndex (sprintfWord old frame) with
          | .error e => .error e
          | .ok M1 =>
            .ok { s with
              M := M1
              rands := rest
              console := s.console ++ [⟨frame, VA⟩]
              pcb := { s.pcb with TTC := s.pcb.TTC + 1 } }
  else
    .ok { terminate s 6 (-1) with breakFlag := true }

/-- The block `if (SI != 0) { switch (SI) ... SI = 0; }` of `masterMode`. -/
def serviceSI (s : State) : State :=
  if s.SI ≠ 0 then
    let t : State :=
      if s.SI = 1 then s
      else if s.SI = 2 then terminate s 3 (-1)
      else if s.SI = 3 then { terminate s 0 (-1) with breakFlag := true }
      else s
    { t with SI := 0 }
  else s

/-- The block `if (PI != 0) { switch (PI) ... }` of `masterMode`. -/
def servicePI (s : State) : Except Fault State :=
  if s.PI ≠ 0 then
    if s.PI = 1 then .ok { terminate s 4 (-1) with breakFlag := true }
    else if s.PI = 2 then .ok { terminate s 5 (-1) with breakFlag := true }
    else if s.PI = 3 then
      match handlePageFault s with
      | .error e => .error e
      | .ok s1 => .ok { s1 with PI := 0 }
    else .ok s
  else .ok s

/-- The function `OS::masterMode`: the timer branch returns at once; the system block and the
program block follow one another. -/
def masterMode (s : State) : Except Fault State :=
  if s.TI = 2 then .ok { terminate s 3 (-1) with breakFlag := true }
  else servicePI (serviceSI s)

/-! ## Input and output -/

/-- Whether `pat` occurs at the start of `l`. -/
def startsWith (pat l : List Char) : Bool :=
  match pat, l with
  | [], _ => true
  | _ :: _, [] => false
  | p :: ps, c :: cs => p = c && startsWith ps cs

/-- The test `line.find(pat) != string::npos`. -/
def containsSub (pat : List Char) : List Char → Bool
  | [] => startsWith pat []
  | c :: cs => startsWith pat (c :: cs) || containsSub pat cs

/-- The copy loop of `read`: `M[RA + i / 4][i % 4] = line[i]` for the characters from index `i` on. -/
def storeChars (M : Memory) (RA : Int) : Nat → List Char → Except Fault Memory
  | _, [] => .ok M
  | i, c :: cs =>
    match getWord M (RA + (i / 4 : Nat)) with
    | .error e => .error e
    | .ok w =>
      match setWord M (RA + (i / 4 : Nat)) (w.set (i % 4) c) with
      | .error e => .error e
      | .ok M1 => storeChars M1 RA (i + 1) cs

/-- The function `OS::read`. -/
def read (s : State) (RA : Int) : Except Fault State :=
  match s.inputFile with
  | [] => .ok s
  | line :: rest =>
    let s1 : State := { s with inputFile := rest }
    if containsSub ['$', 'E', 'N', 'D'] line then
      .ok { terminate s1 1 (-1) with breakFlag := true }
    else
      match storeChars s1.M RA 0 (line.take 40) with
      | .error e => .error e
      | .ok M1 => .ok { s1 with M := M1 }

/-- The nested loops of `write`: the non-null characters of `M[RA + i]` for `i` from `i` up,
`n` words in all. -/
def collectChars (M : Memory) (RA : Int) : Nat → Nat → Except Fault (List Char)
  | _, 0 => .ok []
  | i, n + 1 =>
    match getWord M (RA + (i : Nat)) with
    | .error e => .error e
    | .ok w =>
      match collectChars M RA (i + 1) n with
      | .error e => .error e
      | .ok tail => .ok (w.toList.filter (fun c => c ≠ '\x00') ++ tail)

/-- The function `OS::write`. -/
def write (s : State) (RA : Int) : Except Fault State :=
  let s1 : State := { s with pcb := { s.pcb with LLC := s.pcb.LLC + 1 } }
  if s1.pcb.LLC > s1.pcb.TLL then
    .ok { terminate s1 2 (-1) with breakFlag := true }
  else
    match collectChars s1.M RA 0 10 with
    | .error e => .error e
    | .ok text => .ok { s1 with outputFile := s1.outputFile ++ [.line text] }

/-! ## The execution loop -/

/-- How one pass through the body of the `while` loop ends: at the end of the body or at a
`continue` (`next`: the loop condition is tested again), or at a `break` (`exit`). -/
inductive Ctl where
  | next
  | exit
  deriving DecidableEq, Repr

/-- The test `strncmp(a, b, 4) == 0` on two four-character buffers: equal up to the first null. -/
def strncmpEq : List Char → List Char → Bool
  | a :: as, b :: bs => if a ≠ b then false else if a = '\x00' then true else strncmpEq as bs
  | _, _ => true

/-- The chain `if (opcode == "LR") ... else { PI = 1; masterMode(); }` that ends the loop body. -/
def execute (s : State) (op : List Char) (operandVA operandRA : Int) : Except Fault (State × Ctl) :=
  if op = ['L', 'R'] then
    match getWord s.M operandRA with
    | .error e => .error e
    | .ok w => .ok ({ s with R := w, pcb := { s.pcb with TTC := s.pcb.TTC + 1 } }, .next)
  else if op = ['S', 'R'] then
    match setWord s.M operandRA s.R with
    | .error e => .error e
    | .ok M1 => .ok ({ s with M := M1, pcb := { s.pcb with TTC := s.pcb.TTC + 1 } }, .next)
  else if op = ['C', 'R'] then
    match getWord s.M operandRA with
    | .error e => .error e
    | .ok w =>
      .ok ({ s with C := strncmpEq s.R.toList w.toList,
                    pcb := { s.pcb with TTC := s.pcb.TTC + 1 } }, .next)
  else if op = ['B', 'T'] then
    let s1 : State := if s.C then { s with IC := operandVA } else s
    .ok ({ s1 with pcb := { s1.pcb with TTC := s1.pcb.TTC + 1 } }, .next)
  else if op = ['G', 'D'] then
    match read { s with SI := 1 } operandRA with
    | .error e => .error e
    | .ok s1 => .ok ({ s1 with pcb := { s1.pcb with TTC := s1.pcb.TTC + 1 } }, .next)
  else if op = ['P', 'D'] then
    match write { s with SI := 2 } operandRA with
    | .error e => .error e
    | .ok s1 => .ok ({ s1 with pcb := { s1.pcb with TTC := s1.pcb.TTC + 1 } }, .next)
  else
    match masterMode { s with PI := 1 } with
    | .error e => .error e
    | .ok s1 => .ok (s1, .next)

/-- The loop body from the time-quota test on (the instruction is in `IR`, its operand field
has been checked). -/
def decodeAndExecute (s : State) : Except Fault (State × Ctl) :=
  let op := opcode s.IR
  if s.pcb.TTC ≥ s.pcb.TTL then
    match masterMode { s with TI := 2 } with
    | .error e => .error e
    | .ok s1 => .ok (s1, .exit)
  else if op = ['H', ' '] then
    match masterMode { s with SI := 3 } with
    | .error e => .error e
    | .ok s1 => .ok (s1, .exit)
  else
    match stoi (operandStr s.IR) with
    | none => .error .uncaughtException
    | some operandVA =>
      match addressMap s operandVA with
      | .error e => .error e
      | .ok (s1, operandRA) =>
        if s1.PI ≠ 0 then
          match masterMode s1 with
          | .error e => .error e
          | .ok s2 =>
            if s2.breakFlag then .ok (s2, .exit)
            else if op = ['G', 'D'] ∨ op = ['S', 'R'] then
              match addressMap s2 operandVA with
              | .error e => .error e
              | .ok (s3, operandRA1) => execute s3 op operandVA operandRA1
            else .ok (s2, .next)
        else execute s1 op operandVA operandRA

/-- The loop body after the fetch: the operand-field check, then the rest. -/
def checkOperandField (s : State) : Except Fault (State × Ctl) :=
  if s.IR.c0 ≠ 'H' then
    if !isdigit s.IR.c2 && !isdigit s.IR.c3 then
      match masterMode { s with PI := 2 } with
      | .error e => .error e
      | .ok s1 => if s1.breakFlag then .ok (s1, .exit) else decodeAndExecute s1
    else decodeAndExecute s
  else decodeAndExecute s

/-- One pass through the body of the `while (!breakFlag)` loop of `executeUserProgram`. -/
def loopBody (s : State) : Except Fault (State × Ctl) :=
  match addressMap s s.IC with
  | .error e => .error e
  | .ok (s1, RA) =>
    if s1.PI ≠ 0 then
      match masterMode s1 with
      | .error e => .error e
      | .ok s2 => if s2.breakFlag then .ok (s2, .exit) else .ok (s2, .next)
    else
      match getWord s1.M RA with
      | .error e => .error e
      | .ok w => checkOperandField { s1 with IR := w, IC := s1.IC + 1 }

/-- How a bounded run of the loop ends. -/
inductive Outcome where
  /-- The loop was left; the state at that point. -/
  | finished (s : State)
  /-- The program failed to return. -/
  | failed (f : Fault)
  /-- The loop is still running after the given number of passes. -/
  | unfinished (s : State)

/-- The function `OS::executeUserProgram`, for at most `fuel` passes through the loop body. -/
def executeUserProgram : Nat → State → Outcome
  | 0, s => if s.breakFlag then .finished s else .unfinished s
  | fuel + 1, s =>
    if s.breakFlag then .finished s
    else
      match loopBody s with
      | .error e => .failed e
      | .ok (s1, .exit) => .finished s1
      | .ok (s1, .next) => executeUserProgram fuel s1


/-! ## Sample states -/

/-- A loaded job: page table in frame 11, program page 0 in frame 7. -/
def sampleMemory : Memory := fun i =>
  if i.val = 110 then ⟨'7', '\x00', '\x00', '\x00'⟩
  else if 111 ≤ i.val ∧ i.val ≤ 119 then ⟨'*', '\x00', '\x00', '\x00'⟩
  else if i.val = 70 then ⟨'G', 'D', '2', '0'⟩
  else if i.val = 71 then ⟨'S', 'R', '3', '4'⟩
  else if i.val = 72 then ⟨'P', 'D', '2', '0'⟩
  else if i.val = 73 then ⟨'H', ' ', ' ', ' '⟩
  else nullWord

def sampleState : State :=
  { M := sampleMemory, IR := nullWord, R := nullWord, C := false, IC := 0, SI := 0, PI := 0,
    TI := 0, PTR := 110, breakFlag := false, pcb := ⟨1, 5, 5, 0, 0⟩,
    inputFile := [['T', 'E', 'S', 'T']], outputFile := [], console := [], rands := [7, 11, 4] }

/-- The sample job with the timer interrupt, a system interrupt and a page fault all pending. -/
def allPendingState : State := { sampleState with TI := 2, SI := 1, PI := 3 }

/-- The number of output lines (records written by `write`) in an output file. -/
def lineCount (out : List OutEvent) : Nat :=
  (out.filter (fun e => match e with
    | .line _ => true
    | _ => false)).length

/-- The output lines written so far plus the lines the quota still allows. -/
def lineBudget (s : State) : Nat := lineCount s.outputFile + (s.pcb.TLL - s.pcb.LLC).toNat

/-- The relation "the line limit is the same and the line budget has not grown". -/
def QuotaKept (s s1 : State) : Prop := s1.pcb.TLL = s.pcb.TLL ∧ lineBudget s1 ≤ lineBudget s

/-- The relation "the line quota counters are the same and no output line was written". -/
def NoLine (s s1 : State) : Prop :=
  s1.pcb.TLL = s.pcb.TLL ∧ s1.pcb.LLC = s.pcb.LLC ∧
    lineCount s1.outputFile = lineCount s.outputFile

/-- The sample job with the line quota used up. -/
def quotaUsedState : State := { sampleState with pcb := ⟨1, 5, 5, 3, 5⟩ }

/-- The job whose program card is `GD20` ten times, as `load` leaves it at `$DTA` (`TTL = 50`,
`TLL = 5`): page table in frame 11, the program in frame 7, ten data lines `TEST` and the end
card waiting, and the values `rand()` is going to return. -/
def tenReadsState : State :=
  { M := fun i =>
      if i.val = 110 then ⟨'7', '\x00', '\x00', '\x00'⟩
      else if 111 ≤ i.val ∧ i.val ≤ 119 then ⟨'*', '\x00', '\x00', '\x00'⟩
      else if 70 ≤ i.val ∧ i.val ≤ 79 then ⟨'G', 'D', '2', '0'⟩
      else nullWord,
    IR := nullWord, R := nullWord, C := false, IC := 0, SI := 0, PI := 0,
    TI := 0, PTR := 110, breakFlag := false, pcb := ⟨1, 50, 5, 0, 0⟩,
    inputFile := List.replicate 10 ['T', 'E', 'S', 'T'] ++ [['$', 'E', 'N', 'D']],
    outputFile := [], console := [], rands := [7, 11, 4, 4, 9, 9] }

/-- The job whose program card is `GD20PD20GD30PD30H` followed by three blanks, as `load`
leaves it at `$DTA` (`TTL = 50`, `TLL = 5`): page table in frame 11, the program in frame 7,
the data lines `TEST` and `MORE` and the end card waiting. -/
def twoLinesState : State :=
  { M := fun i =>
      if i.val = 110 then ⟨'7', '\x00', '\x00', '\x00'⟩
      else if 111 ≤ i.val ∧ i.val ≤ 119 then ⟨'*', '\x00', '\x00', '\x00'⟩
      else if i.val = 70 then ⟨'G', 'D', '2', '0'⟩
      else if i.val = 71 then ⟨'P', 'D', '2', '0'⟩
      else if i.val = 72 then ⟨'G', 'D', '3', '0'⟩
      else if i.val = 73 then ⟨'P', 'D', '3', '0'⟩
      else if i.val = 74 then ⟨'H', ' ', ' ', ' '⟩
      else nullWord,
    IR := nullWord, R := nullWord, C := false, IC := 0, SI := 0, PI := 0,
    TI := 0, PTR := 110, breakFlag := false, pcb := ⟨1, 50, 5, 0, 0⟩,
    inputFile := [['T', 'E', 'S', 'T'], ['M', 'O', 'R', 'E'], ['$', 'E', 'N', 'D']],
    outputFile := [], console := [], rands := [7, 11, 4, 4, 9] }

/-- The sample job about to fetch `SR34` at virtual address 1, with `ABCD` in the register. -/
def storeFaultState : State := { sampleState with IC := 1, R := ⟨'A', 'B', 'C', 'D'⟩ }

/-- The states in which a pass through the loop body starts while a job runs: the job is not
terminated, no program or timer interrupt is pending, and `SI` is 0 or what the last `GD` (1)
or `PD` (2) left. -/
def Running (s : State) : Prop :=
  s.breakFlag = false ∧ s.PI = 0 ∧ s.TI = 0 ∧ (s.SI = 0 ∨ s.SI = 1 ∨ s.SI = 2)

/-- The job whose program card is `XX20H` followed by three blanks, as `load` leaves it at
`$DTA`: page table in frame 11, the program in frame 7; the operand page 2 is unmapped. -/
def unknownOpcodeState : State :=
  { M := fun i =>
      if i.val = 110 then ⟨'7', '\x00', '\x00', '\x00'⟩
      else if 111 ≤ i.val ∧ i.val ≤ 119 then ⟨'*', '\x00', '\x00', '\x00'⟩
      else if i.val = 70 then ⟨'X', 'X', '2', '0'⟩
      else if i.val = 71 then ⟨'H', ' ', ' ', ' '⟩
      else nullWord,
    IR := nullWord, R := nullWord, C := false, IC := 0, SI := 0, PI := 0,
    TI := 0, PTR := 110, breakFlag := false, pcb := ⟨1, 50, 5, 0, 0⟩,
    inputFile := [['$', 'E', 'N', 'D']],
    outputFile := [], console := [], rands := [7, 11, 4] }

/-- The same job with the operand of the unknown instruction in the mapped page 0 (`XX05`). -/
def unknownOpcodeMappedState : State :=
  { unknownOpcodeState with
    M := Function.update unknownOpcodeState.M ⟨70, by decide⟩ ⟨'X', 'X', '0', '5'⟩ }
/-- The job whose program card is `GD20PD20H` followed by three blanks, as `load` leaves it at
`$DTA` when the input file ends right after the `$DTA` card: no line is left to read. -/
def noDataState : State :=
  { M := fun i =>
      if i.val = 110 then ⟨'7', '\x00', '\x00', '\x00'⟩
      else if 111 ≤ i.val ∧ i.val ≤ 119 then ⟨'*', '\x00', '\x00', '\x00'⟩
      else if i.val = 70 then ⟨'G', 'D', '2', '0'⟩
      else if i.val = 71 then ⟨'P', 'D', '2', '0'⟩
      else if i.val = 72 then ⟨'H', ' ', ' ', ' '⟩
      else nullWord,
    IR := nullWord, R := nullWord, C := false, IC := 0, SI := 0, PI := 0,
    TI := 0, PTR := 110, breakFlag := false, pcb := ⟨1, 50, 5, 0, 0⟩,
    inputFile := [], outputFile := [], console := [], rands := [7, 11, 4] }

/-- The job whose program card is `LRx2H` followed by three blanks, as `load` leaves it at
`$DTA`: the operand field of the first instruction has a letter and then a digit. -/
def letterDigitOperandState : State :=
  { M := fun i =>
      if i.val = 110 then ⟨'7', '\x00', '\x00', '\x00'⟩
      else if 111 ≤ i.val ∧ i.val ≤ 119 then ⟨'*', '\x00', '\x00', '\x00'⟩
      else if i.val = 70 then ⟨'L', 'R', 'x', '2'⟩
      else if i.val = 71 then ⟨'H', ' ', ' ', ' '⟩
      else nullWord,
    IR := nullWord, R := nullWord, C := false, IC := 0, SI := 0, PI := 0,
    TI := 0, PTR := 110, breakFlag := false, pcb := ⟨1, 50, 5, 0, 0⟩,
    inputFile := [['$', 'E', 'N', 'D']], outputFile := [], console := [], rands := [7, 11, 4] }

/-- The same job with the operand field a digit and then a letter (`LR1x`). -/
def digitLetterOperandState : State :=
  { letterDigitOperandState with
    M := Function.update letterDigitOperandState.M ⟨70, by decide⟩ ⟨'L', 'R', '1', 'x'⟩ }

/-- The job whose program card is `GD20PD20H`, with nothing after the `H`, as `load` leaves it
at `$DTA`: the halt word is `H` followed by three nulls. One data line `TEST` is waiting. -/
def haltWithoutBlankState : State :=
  { M := fun i =>
      if i.val = 110 then ⟨'7', '\x00', '\x00', '\x00'⟩
      else if 111 ≤ i.val ∧ i.val ≤ 119 then ⟨'*', '\x00', '\x00', '\x00'⟩
      else if i.val = 70 then ⟨'G', 'D', '2', '0'⟩
      else if i.val = 71 then ⟨'P', 'D', '2', '0'⟩
      else if i.val = 72 then ⟨'H', '\x00', '\x00', '\x00'⟩
      else nullWord,
    IR := nullWord, R := nullWord, C := false, IC := 0, SI := 0, PI := 0,
    TI := 0, PTR := 110, breakFlag := false, pcb := ⟨1, 50, 5, 0, 0⟩,
    inputFile := [['T', 'E', 'S', 'T'], ['$', 'E', 'N', 'D']],
    outputFile := [], console := [], rands := [7, 11, 4] }
/-- The character `M[RA + k / 4][k % 4]`: the `k`-th character of the block that starts at
word `RA` (null when the word lies outside memory). -/
def charAt (M : Memory) (RA : Int) (k : Nat) : Char :=
  match getWord M (RA + (k / 4 : Nat)) with
  | .ok w => w.get (k % 4)
  | .error _ => '\x00'
/-- A well-formed page-table entry: the unmapped sentinel, or the decimal text of a frame
number below 30. -/
def entryOK (w : Word) : Bool :=
  decide (w.c0 = '*') || (List.range 30).any (fun f => decide (cstr w.toList = decimal f))

/-- A well-formed page table: `PTR` is a multiple of 10 in `[0, 300)` and each of the ten
entries `M[PTR..PTR+9]` is well formed. -/
def wellFormed (s : State) : Bool :=
  decide (0 ≤ s.PTR) && decide (s.PTR < 300) && decide (s.PTR % 10 = 0) &&
    (List.range 10).all (fun i =>
      match getWord s.M (s.PTR + (i : Nat)) with
      | .ok w => entryOK w
      | .error _ => false)

/-- The job whose program card is `GD20PD25H` followed by three blanks, as `load` leaves it at
`$DTA`, with one data line `TEST`; the next value of `rand()` is 29. -/
def lastFrameState : State :=
  { M := fun i =>
      if i.val = 110 then ⟨'7', '\x00', '\x00', '\x00'⟩
      else if 111 ≤ i.val ∧ i.val ≤ 119 then ⟨'*', '\x00', '\x00', '\x00'⟩
      else if i.val = 70 then ⟨'G', 'D', '2', '0'⟩
      else if i.val = 71 then ⟨'P', 'D', '2', '5'⟩
      else if i.val = 72 then ⟨'H', ' ', ' ', ' '⟩
      else nullWord,
    IR := nullWord, R := nullWord, C := false, IC := 0, SI := 0, PI := 0,
    TI := 0, PTR := 110, breakFlag := false, pcb := ⟨1, 50, 5, 0, 0⟩,
    inputFile := [['T', 'E', 'S', 'T'], ['$', 'E', 'N', 'D']],
    outputFile := [], console := [], rands := [29] }
/-- The job whose program card is `GD20LR20SR31SR41H` followed by three blanks, as `load`
leaves it at `$DTA`, with one data line `TEST`; `rand()` is going to return 4, 9 and 9. -/
def sharedFrameState : State :=
  { M := fun i =>
      if i.val = 110 then ⟨'7', '\x00', '\x00', '\x00'⟩
      else if 111 ≤ i.val ∧ i.val ≤ 119 then ⟨'*', '\x00', '\x00', '\x00'⟩
      else if i.val = 70 then ⟨'G', 'D', '2', '0'⟩
      else if i.val = 71 then ⟨'L', 'R', '2', '0'⟩
      else if i.val = 72 then ⟨'S', 'R', '3', '1'⟩
      else if i.val = 73 then ⟨'S', 'R', '4', '1'⟩
      else if i.val = 74 then ⟨'H', ' ', ' ', ' '⟩
      else nullWord,
    IR := nullWord, R := nullWord, C := false, IC := 0, SI := 0, PI := 0,
    TI := 0, PTR := 110, breakFlag := false, pcb := ⟨1, 50, 5, 0, 0⟩,
    inputFile := [['T', 'E', 'S', 'T'], ['$', 'E', 'N', 'D']],
    outputFile := [], console := [], rands := [4, 9, 9] }

/-- The sample job at the page fault of its first instruction: `GD20` is in `IR` and `PI = 3`. -/
def faultPendingState : State :=
  { sampleState with IR := ⟨'G', 'D', '2', '0'⟩, IC := 1, PI := 3 }
/-- The situation the job `GD20` ten times is in after its ten instructions: running, `GD20`
still in `IR`, the instruction counter in the unmapped page 1, and frame 9 empty. -/
def FetchLoop (s : State) : Prop :=
  s.breakFlag = false ∧ s.PI = 0 ∧ s.TI = 0 ∧ s.SI ≠ 3 ∧ s.IC = 10 ∧
    s.IR = ⟨'G', 'D', '2', '0'⟩ ∧ s.PTR = 110 ∧
    (∃ w, getWord s.M 111 = .ok w ∧ w.c0 = '*') ∧
    (∃ w, getWord s.M 90 = .ok w ∧ w.c0 = '\x00')
/-! ## Decimal text and `stoi` -/

theorem isdigit_digitChar (d : Nat) (h : d < 10) : isdigit (digitChar d) = true := by
  interval_cases d <;> decide

theorem digitVal_digitChar (d : Nat) (h : d < 10) : digitVal (digitChar d) = d := by
  interval_cases d <;> decide

theorem decimalAux_fuel (fuel1 : Nat) :
    ∀ fuel2 n, n < fuel1 → n < fuel2 → decimalAux fuel1 n = decimalAux fuel2 n := by
  induction fuel1 with
  | zero => intro fuel2 n h; omega
  | succ k ih =>
    intro fuel2 n h1 h2
    cases fuel2 with
    | zero => omega
    | succ j =>
      simp only [decimalAux]
      split
      · rfl
      · rw [ih j (n / 10) (by omega) (by omega)]

/-- The recursion equation of `decimal`. -/
theorem decimal_eq (n : Nat) :
    decimal n = if n < 10 then [digitChar n] else decimal (n / 10) ++ [digitChar (n % 10)] := by
  show decimalAux (n + 1) n
    = if n < 10 then [digitChar n] else decimalAux (n / 10 + 1) (n / 10) ++ [digitChar (n % 10)]
  rw [decimalAux]
  split
  · rfl
  · rw [decimalAux_fuel n (n / 10 + 1) (n / 10) (by omega) (by omega)]

theorem decimal_ne_nil (n : Nat) : decimal n ≠ [] := by
  rw [decimal_eq]; split <;> simp

theorem decimal_digits (n : Nat) : ∀ c ∈ decimal n, isdigit c = true := by
  induction n using Nat.strong_induction_on with
  | _ n ih =>
    rw [decimal_eq]
    split
    · intro c hc
      simp only [List.mem_singleton] at hc
      subst hc
      exact isdigit_digitChar n (by omega)
    · intro c hc
      rcases List.mem_append.mp hc with h | h
      · exact ih (n / 10) (by omega) c h
      · simp only [List.mem_singleton] at h
        subst h
        exact isdigit_digitChar _ (Nat.mod_lt _ (by omega))

theorem readDigits_append (ds : List Char) (hds : ∀ c ∈ ds, isdigit c = true) (rest : List Char) :
    ∀ acc, readDigits acc (ds ++ rest)
      = readDigits (readDigits acc ds) rest := by
  induction ds with
  | nil => intro acc; simp [readDigits]
  | cons c cs ih =>
    intro acc
    have hc : isdigit c = true := hds c (List.mem_cons_self _ _)
    simp only [List.cons_append, readDigits, hc, if_true]
    exact ih (fun d hd => hds d (List.mem_cons_of_mem _ hd)) _

theorem readDigits_decimal (n : Nat) :
    ∀ acc, readDigits acc (decimal n) = acc * 10 ^ (decimal n).length + n := by
  induction n using Nat.strong_induction_on with
  | _ n ih =>
    intro acc
    rw [decimal_eq]
    split
    · rename_i h
      simp [readDigits, isdigit_digitChar n h, digitVal_digitChar n h]
    · rename_i h
      have hm : n % 10 < 10 := Nat.mod_lt _ (by omega)
      rw [readDigits_append _ (decimal_digits _), ih (n / 10) (by omega)]
      simp only [readDigits, isdigit_digitChar _ hm, digitVal_digitChar _ hm, if_true,
        List.length_append, List.length_singleton, pow_succ]
      have := Nat.div_add_mod n 10
      ring_nf
      ring_nf at this
      omega

theorem lt_pow_length_decimal (n : Nat) : n < 10 ^ (decimal n).length := by
  induction n using Nat.strong_induction_on with
  | _ n ih =>
    rw [decimal_eq]
    split
    · simpa using ‹n < 10›
    · have := ih (n / 10) (by omega)
      simp only [List.length_append, List.length_singleton, pow_succ]
      omega


theorem isspace_of_isdigit (c : Char) (h : isdigit c = true) : isspace c = false := by
  simp only [isdigit, Bool.and_eq_true, decide_eq_true_eq] at h
  simp only [isspace, Bool.or_eq_false_iff, Bool.and_eq_false_iff, decide_eq_false_iff_not]
  omega

theorem not_sign_of_isdigit (c : Char) (h : isdigit c = true) : ¬ (c = '-' ∨ c = '+') := by
  rintro (rfl | rfl) <;> revert h <;> decide

/-- A buffer whose C string starts with a digit: `stoi` reads the digit run. -/
theorem stoi_digit_head (cs : List Char) (d : Char) (tl : List Char)
    (h : cstr cs = d :: tl) (hd : isdigit d = true)
    (hr : (readDigits 0 (d :: tl) : Int) ≤ 2147483647) :
    stoi cs = some (readDigits 0 (d :: tl) : Int) := by
  have hsp := isspace_of_isdigit d hd
  have hsg := not_sign_of_isdigit d hd
  have hm : d ≠ '-' := fun e => hsg (Or.inl e)
  have hp : d ≠ '+' := fun e => hsg (Or.inr e)
  have hv : (-2147483648 : Int) ≤ (readDigits 0 (d :: tl) : Int) := by
    have : (0 : Int) ≤ (readDigits 0 (d :: tl) : Int) := Int.natCast_nonneg _
    omega
  simp only [stoi, h, List.dropWhile_cons, hsp, afterSign, or_self, if_false, hd, if_true,
    List.head?_cons, Option.some.injEq, hm, hp, hv, hr, and_self, Bool.false_eq_true]

/-- A buffer whose C string is the decimal text of `f`: `stoi` returns `f`. -/
theorem stoi_decimal (cs : List Char) (f : Nat) (h : cstr cs = decimal f)
    (hf : f ≤ 2147483647) : stoi cs = some (f : Int) := by
  cases hdec : decimal f with
  | nil => exact absurd hdec (decimal_ne_nil f)
  | cons d tl =>
    have hd : isdigit d = true := decimal_digits f d (by rw [hdec]; exact List.mem_cons_self _ _)
    have hval : readDigits 0 (d :: tl) = f := by
      rw [← hdec, readDigits_decimal]; simp
    rw [stoi_digit_head cs d tl (by rw [h, hdec]) hd (by rw [hval]; exact_mod_cast hf), hval]


theorem tdiv_ten (v : Int) (h : 0 ≤ v) : Int.tdiv v 10 = v / 10 :=
  Int.tdiv_eq_ediv h (by decide)

theorem tmod_ten (v : Int) (h : 0 ≤ v) : Int.tmod v 10 = v % 10 := by
  rw [Int.tmod_eq_emod h (by decide)]

theorem cstr_length_le (cs : List Char) : (cstr cs).length ≤ cs.length :=
  (List.takeWhile_sublist _).length_le

/-- The first character of a word is the first character of its C string, when that is not empty. -/
theorem cstr_head (w : Word) (d : Char) (tl : List Char) (h : cstr w.toList = d :: tl) :
    w.c0 = d := by
  simp only [cstr, Word.toList, List.takeWhile_cons] at h
  split at h
  · exact (List.cons.inj h).1
  · exact absurd h (by simp)

/-- Translation through an unmapped entry: a page fault, nothing else. -/
theorem addressMap_of_sentinel (s : State) (v : Int) (pte : Word)
    (hv : 0 ≤ v ∧ v < 100)
    (hpte : getWord s.M (s.PTR + v / 10) = .ok pte)
    (hstar : pte.c0 = '*') :
    addressMap s v = .ok ({ s with PI := 3 }, -1) := by
  simp only [addressMap, hv, and_self, if_true, tdiv_ten v hv.1, hpte, hstar]

/-- Translation through a present entry in which `stoi` reads the number `frame`. -/
theorem addressMap_of_stoi (s : State) (v : Int) (pte : Word) (frame : Int)
    (hv : 0 ≤ v ∧ v < 100)
    (hpte : getWord s.M (s.PTR + v / 10) = .ok pte)
    (hpresent : pte.c0 ≠ '*')
    (hstoi : stoi pte.toList = some frame) :
    addressMap s v = .ok (s, frame * 10 + v % 10) := by
  simp only [addressMap, hv, and_self, if_true, tdiv_ten v hv.1, tmod_ten v hv.1, hpte,
    hpresent, if_false, hstoi]

/-- An entry whose C string is a decimal text is present: its first character is a digit. -/
theorem present_of_decimal (pte : Word) (f : Nat) (hf : cstr pte.toList = decimal f) :
    pte.c0 ≠ '*' := by
  cases hdec : decimal f with
  | nil => exact absurd hdec (decimal_ne_nil f)
  | cons d tl =>
    have hd : isdigit d = true :=
      decimal_digits f d (by rw [hdec]; exact List.mem_cons_self _ _)
    rw [cstr_head pte d tl (by rw [hf, hdec])]
    rintro rfl
    revert hd
    decide

/-- An entry whose C string is the decimal text of `f`: `stoi` reads `f` from its four
characters. -/
theorem stoi_entry_decimal (pte : Word) (f : Nat) (hf : cstr pte.toList = decimal f) :
    stoi pte.toList = some (f : Int) := by
  have hlen : (decimal f).length ≤ 4 := by
    rw [← hf]; exact cstr_length_le _
  have hlt := lt_pow_length_decimal f
  have hf4 : f < 10 ^ 4 := lt_of_lt_of_le hlt (Nat.pow_le_pow_right (by decide) hlen)
  exact stoi_decimal _ f hf (by omega)

/-- C1. For every virtual address `v` in `[0, 100)` whose page-table entry `M[PTR + v / 10]`
holds the decimal text of a frame number `f` (the entry read as a C string is what
`sprintf("%d", f)` writes; null padding is the case where every later character is null),
`addressMap v` returns `f * 10 + v % 10` and leaves the whole state, `PI` included, unchanged. -/
theorem addressMap_mapped (s : State) (v : Int) (pte : Word) (f : Nat)
    (hv : 0 ≤ v ∧ v < 100)
    (hpte : getWord s.M (s.PTR + v / 10) = .ok pte)
    (hf : cstr pte.toList = decimal f) :
    addressMap s v = .ok (s, (f : Int) * 10 + v % 10) := by
  have hc0 : pte.c0 ≠ '*' := present_of_decimal pte f hf
  have hstoi : stoi pte.toList = some (f : Int) := stoi_entry_decimal pte f hf
  exact addressMap_of_stoi s v pte f hv hpte hc0 hstoi

/-- C2. For every virtual address `v` in `[0, 100)` whose page-table entry `M[PTR + v / 10]`
is the unmapped sentinel (first character `*`), `addressMap v` sets `PI = 3`, returns `-1`, and
changes nothing else: memory after the call is memory before it. -/
theorem addressMap_unmapped (s : State) (v : Int) (pte : Word)
    (hv : 0 ≤ v ∧ v < 100)
    (hpte : getWord s.M (s.PTR + v / 10) = .ok pte)
    (hstar : pte.c0 = '*') :
    addressMap s v = .ok ({ s with PI := 3 }, -1) ∧
      ∀ s1 r, addressMap s v = .ok (s1, r) → s1.PI = 3 ∧ r = -1 ∧ s1.M = s.M := by
  have h : addressMap s v = .ok ({ s with PI := 3 }, -1) :=
    addressMap_of_sentinel s v pte hv hpte hstar
  refine ⟨h, ?_⟩
  intro s1 r h1
  rw [h] at h1
  cases h1
  exact ⟨rfl, rfl, rfl⟩

/-- C3. For every virtual address `v` with `v < 0` or `v >= 100`, whatever memory and `PTR`
hold, `addressMap v` sets `PI = 2` (operand error, not the page-fault value 3), returns `-1`
and reads no page-table entry. -/
theorem addressMap_out_of_range (s : State) (v : Int) (hv : v < 0 ∨ 100 ≤ v) :
    addressMap s v = .ok ({ s with PI := 2 }, -1) ∧
      ∀ s1 r, addressMap s v = .ok (s1, r) → s1.PI = 2 ∧ s1.PI ≠ 3 ∧ r = -1 := by
  have hn : ¬ (0 ≤ v ∧ v < 100) := by omega
  have h : addressMap s v = .ok ({ s with PI := 2 }, -1) := by
    simp only [addressMap, hn, if_false]
  refine ⟨h, ?_⟩
  intro s1 r h1
  rw [h] at h1
  cases h1
  exact ⟨rfl, by simp, rfl⟩


/-- C1 at the sample job: virtual address 3 lies in page 0, mapped to frame 7. -/
theorem addressMap_mapped_witness :
    addressMap sampleState 3 = .ok (sampleState, ((7 : Nat) : Int) * 10 + 3 % 10) :=
  addressMap_mapped sampleState 3 ⟨'7', '\x00', '\x00', '\x00'⟩ 7 (by decide) (by rfl) (by decide)

/-- C2 at the sample job: page 2 is unmapped. -/
theorem addressMap_unmapped_witness :
    addressMap sampleState 20 = .ok ({ sampleState with PI := 3 }, -1) :=
  (addressMap_unmapped sampleState 20 ⟨'*', '\x00', '\x00', '\x00'⟩ (by decide) (by rfl) (by rfl)).1

/-- C3 at the sample job: address 100 is outside the virtual range. -/
theorem addressMap_out_of_range_witness :
    addressMap sampleState 100 = .ok ({ sampleState with PI := 2 }, -1) :=
  (addressMap_out_of_range sampleState 100 (by decide)).1

/-! ## Entries that `stoi` accepts or rejects -/

theorem readDigits_lt (l : List Char) : ∀ acc, readDigits acc l < (acc + 1) * 10 ^ l.length := by
  induction l with
  | nil => intro acc; simp [readDigits]
  | cons c cs ih =>
    intro acc
    have hpos : 0 < 10 ^ cs.length := by positivity
    simp only [readDigits, List.length_cons, pow_succ]
    split
    · rename_i hc
      have hd : digitVal c ≤ 9 := by
        simp only [isdigit, Bool.and_eq_true, decide_eq_true_eq] at hc
        simp only [digitVal]
        omega
      calc readDigits (acc * 10 + digitVal c) cs
          < (acc * 10 + digitVal c + 1) * 10 ^ cs.length := ih _
        _ ≤ ((acc + 1) * 10) * 10 ^ cs.length := Nat.mul_le_mul_right _ (by omega)
        _ = (acc + 1) * (10 ^ cs.length * 10) := by ring
    · calc acc < acc + 1 := Nat.lt_succ_self _
        _ ≤ (acc + 1) * (10 ^ cs.length * 10) := Nat.le_mul_of_pos_right _ (by omega)

theorem afterSign_length_le (cs : List Char) : (afterSign cs).length ≤ cs.length := by
  cases cs with
  | nil => simp [afterSign]
  | cons c rest =>
    simp only [afterSign]
    split <;> simp

/-- C5. For every state in which the Timer Interrupt is pending (`TI = 2`), whatever `SI` and
`PI` are (in particular with a Program Interrupt 1, 2 or 3 pending), `masterMode` appends
exactly one termination record, the one of error 3 with reason "Time Limit Exceeded", sets
`breakFlag`, and changes nothing else: no program-interrupt record, no fault handling, memory
(the page table included), `TTC`, `PI` and the frame source are as before. -/
theorem masterMode_timer_first (s : State) (hTI : s.TI = 2) :
    masterMode s = .ok { s with
      outputFile := s.outputFile ++
        [.abnormal 3 "Time Limit Exceeded" none s.IC s.IR s.C s.R
          s.pcb.TTL s.pcb.TTC s.pcb.TLL s.pcb.LLC]
      breakFlag := true } := by
  simp only [masterMode, hTI, if_true, terminate, terminateRecord]
  rfl

/-- C5 at the sample job with timer, system and program interrupts all pending. -/
theorem masterMode_timer_first_witness :
    allPendingState.TI = 2 ∧ allPendingState.PI = 3 ∧
    masterMode allPendingState = .ok { allPendingState with
      outputFile := allPendingState.outputFile ++
        [.abnormal 3 "Time Limit Exceeded" none allPendingState.IC allPendingState.IR
          allPendingState.C allPendingState.R allPendingState.pcb.TTL allPendingState.pcb.TTC
          allPendingState.pcb.TLL allPendingState.pcb.LLC]
      breakFlag := true } :=
  ⟨rfl, rfl, masterMode_timer_first allPendingState rfl⟩

theorem terminationCount_append_one (out : List OutEvent) (e : OutEvent) :
    terminationCount (out ++ [e]) ≤ terminationCount out + 1 := by
  simp only [terminationCount, List.filter_append, List.length_append]
  have : (List.filter (fun e => match e with
    | .line _ => false
    | _ => true) [e]).length ≤ 1 := (List.filter_sublist _).length_le
  omega

/-- The system block changes only `SI`, `breakFlag` and the output file, to which it adds at
most one termination record; it leaves `SI = 0` when nothing else is pending. -/
theorem serviceSI_frame (s : State) :
    (serviceSI s).PI = s.PI ∧ (serviceSI s).TI = s.TI ∧ (serviceSI s).M = s.M ∧
    (serviceSI s).pcb = s.pcb ∧ (serviceSI s).IR = s.IR ∧ (serviceSI s).R = s.R ∧
    (serviceSI s).C = s.C ∧ (serviceSI s).IC = s.IC ∧ (serviceSI s).PTR = s.PTR ∧
    (serviceSI s).rands = s.rands ∧ (serviceSI s).inputFile = s.inputFile ∧
    (serviceSI s).console = s.console ∧ (serviceSI s).SI = 0 ∧
    terminationCount (serviceSI s).outputFile ≤ terminationCount s.outputFile + 1 := by
  unfold serviceSI
  by_cases h0 : s.SI = 0
  · simp [h0]
  · by_cases h1 : s.SI = 1
    · simp [h1]
    · by_cases h2 : s.SI = 2
      · simp [h2, terminate, terminationCount_append_one]
      · by_cases h3 : s.SI = 3
        · simp [h3, terminate, terminationCount_append_one]
        · simp [h0, h1, h2, h3]
/-- What a successful call of the fault handler on a `GD` or `SR` instruction did. -/
theorem handlePageFault_pageable (s s1 : State)
    (hop : opcode s.IR = ['G', 'D'] ∨ opcode s.IR = ['S', 'R'])
    (h : handlePageFault s = .ok s1) :
    ∃ frame rest VA old M1,
      findFrame s.M s.rands = some (frame, rest) ∧
      stoi (operandStr s.IR) = some VA ∧
      getWord s.M (s.PTR + Int.tdiv VA 10) = .ok old ∧
      setWord s.M (s.PTR + Int.tdiv VA 10) (sprintfWord old frame) = .ok M1 ∧
      s1 = { s with
        M := M1
        rands := rest
        console := s.console ++ [⟨frame, VA⟩]
        pcb := { s.pcb with TTC := s.pcb.TTC + 1 } } := by
  unfold handlePageFault at h
  rw [if_pos hop] at h
  split at h
  · cases h
  · rename_i frame rest hfind
    split at h
    · cases h
    · rename_i VA hVA
      dsimp only at h
      split at h
      · cases h
      · rename_i old hold
        split at h
        · cases h
        · rename_i M1 hM1
          cases h
          exact ⟨frame, rest, VA, old, M1, hfind, hVA, hold, hM1, rfl⟩

/-- The fault handler leaves the interrupt lines alone and adds at most one termination
record. -/
theorem handlePageFault_frame (s s1 : State) (h : handlePageFault s = .ok s1) :
    s1.SI = s.SI ∧ s1.PI = s.PI ∧ s1.TI = s.TI ∧
    terminationCount s1.outputFile ≤ terminationCount s.outputFile + 1 := by
  by_cases hop : opcode s.IR = ['G', 'D'] ∨ opcode s.IR = ['S', 'R']
  · obtain ⟨frame, rest, VA, old, M1, -, -, -, -, rfl⟩ := handlePageFault_pageable s s1 hop h
    simp
  · unfold handlePageFault at h
    rw [if_neg hop] at h
    cases h
    simp [terminate, terminationCount_append_one]

theorem addrIndex_of_range (a : Int) (h : 0 ≤ a ∧ a < 300) :
    ∃ i : Fin MEMORY_SIZE, addrIndex a = some i ∧ (i.val : Int) = a := by
  refine ⟨⟨a.toNat, by show a.toNat < 300; omega⟩, ?_, ?_⟩
  · simp only [addrIndex, h, and_self, dite_true]
  · show (a.toNat : Int) = a
    omega

theorem getWord_of_range (M : Memory) (a : Int) (h : 0 ≤ a ∧ a < 300) :
    ∃ w, getWord M a = .ok w := by
  obtain ⟨i, hi, -⟩ := addrIndex_of_range a h
  exact ⟨M i, by simp only [getWord, hi]⟩

theorem collectChars_of_range (M : Memory) (RA : Int) (n : Nat) :
    ∀ i : Nat, 0 ≤ RA + i → RA + i + n ≤ 300 → ∃ text, collectChars M RA i n = .ok text := by
  induction n with
  | zero => intro i _ _; exact ⟨[], rfl⟩
  | succ k ih =>
    intro i h0 h1
    obtain ⟨w, hw⟩ := getWord_of_range M (RA + i) ⟨h0, by omega⟩
    obtain ⟨tail, ht⟩ := ih (i + 1) (by push_cast; omega) (by push_cast; omega)
    exact ⟨w.toList.filter (fun c => c ≠ '\x00') ++ tail, by simp only [collectChars, hw, ht]⟩

theorem quotaKept_refl (s : State) : QuotaKept s s := ⟨rfl, le_refl _⟩

theorem quotaKept_trans {a b c : State} (h1 : QuotaKept a b) (h2 : QuotaKept b c) :
    QuotaKept a c := ⟨h2.1.trans h1.1, le_trans h2.2 h1.2⟩

theorem lineCount_terminate (s : State) (e k : Int) :
    lineCount (terminate s e k).outputFile = lineCount s.outputFile := by
  simp only [terminate, terminateRecord, lineCount, List.filter_append, List.length_append]
  split <;> simp

/-- Anything that leaves the quota counters alone and writes no output line keeps the quota. -/
theorem quotaKept_of_eq (s s1 : State) (hTLL : s1.pcb.TLL = s.pcb.TLL)
    (hLLC : s1.pcb.LLC = s.pcb.LLC) (hout : lineCount s1.outputFile = lineCount s.outputFile) :
    QuotaKept s s1 := by
  refine ⟨hTLL, ?_⟩
  simp only [lineBudget, hTLL, hLLC, hout, le_refl]

theorem write_quotaKept (s s1 : State) (RA : Int) (h : write s RA = .ok s1) : QuotaKept s s1 := by
  unfold write at h
  dsimp only at h
  split at h
  · rename_i hgt
    cases h
    refine ⟨rfl, ?_⟩
    simp only [lineBudget, lineCount_terminate]
    show lineCount s.outputFile + (s.pcb.TLL - (s.pcb.LLC + 1)).toNat ≤ _
    omega
  · rename_i hle
    split at h
    · cases h
    · cases h
      refine ⟨rfl, ?_⟩
      simp only [lineBudget, lineCount, List.filter_append, List.length_append]
      show _ + (List.filter _ [OutEvent.line _]).length + (s.pcb.TLL - (s.pcb.LLC + 1)).toNat ≤ _
      simp only [List.filter_cons, List.filter_nil, if_true, List.length_singleton]
      simp only [not_lt] at hle
      have : s.pcb.LLC + 1 ≤ s.pcb.TLL := hle
      omega
theorem noLine_refl (s : State) : NoLine s s := ⟨rfl, rfl, rfl⟩

theorem noLine_trans {a b c : State} (h1 : NoLine a b) (h2 : NoLine b c) : NoLine a c :=
  ⟨h2.1.trans h1.1, h2.2.1.trans h1.2.1, h2.2.2.trans h1.2.2⟩

theorem noLine_quotaKept {s s1 : State} (h : NoLine s s1) : QuotaKept s s1 :=
  quotaKept_of_eq s s1 h.1 h.2.1 h.2.2

theorem addressMap_noLine (s s1 : State) (VA r : Int) (h : addressMap s VA = .ok (s1, r)) :
    NoLine s s1 := by
  unfold addressMap at h
  split at h
  · split at h
    · cases h
    · split at h
      · cases h; exact ⟨rfl, rfl, rfl⟩
      · split at h
        · cases h; exact ⟨rfl, rfl, rfl⟩
        · cases h; exact ⟨rfl, rfl, rfl⟩
  · cases h; exact ⟨rfl, rfl, rfl⟩

theorem terminate_noLine (s : State) (e k : Int) : NoLine s (terminate s e k) :=
  ⟨rfl, rfl, lineCount_terminate s e k⟩

theorem handlePageFault_noLine (s s1 : State) (h : handlePageFault s = .ok s1) : NoLine s s1 := by
  by_cases hop : opcode s.IR = ['G', 'D'] ∨ opcode s.IR = ['S', 'R']
  · obtain ⟨frame, rest, VA, old, M1, -, -, -, -, rfl⟩ := handlePageFault_pageable s s1 hop h
    exact ⟨rfl, rfl, rfl⟩
  · unfold handlePageFault at h
    rw [if_neg hop] at h
    cases h
    exact ⟨rfl, rfl, lineCount_terminate s 6 (-1)⟩

theorem serviceSI_noLine (s : State) : NoLine s (serviceSI s) := by
  unfold serviceSI
  split
  · dsimp only
    split
    · exact ⟨rfl, rfl, rfl⟩
    · split
      · exact ⟨rfl, rfl, lineCount_terminate s 3 (-1)⟩
      · split
        · exact ⟨rfl, rfl, lineCount_terminate s 0 (-1)⟩
        · exact ⟨rfl, rfl, rfl⟩
  · exact noLine_refl s

theorem servicePI_noLine (s s1 : State) (h : servicePI s = .ok s1) : NoLine s s1 := by
  unfold servicePI at h
  split at h
  · split at h
    · cases h; exact ⟨rfl, rfl, lineCount_terminate s 4 (-1)⟩
    · split at h
      · cases h; exact ⟨rfl, rfl, lineCount_terminate s 5 (-1)⟩
      · split at h
        · split at h
          · cases h
          · rename_i s2 hs2
            cases h
            exact handlePageFault_noLine s s2 hs2
        · cases h; exact noLine_refl s
  · cases h; exact noLine_refl s

theorem masterMode_noLine (s s1 : State) (h : masterMode s = .ok s1) : NoLine s s1 := by
  unfold masterMode at h
  split at h
  · cases h; exact ⟨rfl, rfl, lineCount_terminate s 3 (-1)⟩
  · exact noLine_trans (serviceSI_noLine s) (servicePI_noLine _ _ h)

theorem read_noLine (s s1 : State) (RA : Int) (h : read s RA = .ok s1) : NoLine s s1 := by
  unfold read at h
  split at h
  · cases h; exact noLine_refl s
  · dsimp only at h
    split at h
    · cases h
      exact ⟨rfl, rfl, lineCount_terminate _ 1 (-1)⟩
    · split at h
      · cases h
      · cases h; exact ⟨rfl, rfl, rfl⟩

theorem execute_quotaKept (s s1 : State) (op : List Char) (va ra : Int) (c : Ctl)
    (h : execute s op va ra = .ok (s1, c)) : QuotaKept s s1 := by
  unfold execute at h
  split at h
  · split at h
    · cases h
    · cases h; exact (noLine_quotaKept ⟨rfl, rfl, rfl⟩)
  · split at h
    · split at h
      · cases h
      · cases h; exact (noLine_quotaKept ⟨rfl, rfl, rfl⟩)
    · split at h
      · split at h
        · cases h
        · cases h; exact (noLine_quotaKept ⟨rfl, rfl, rfl⟩)
      · split at h
        · dsimp only at h
          cases h
          split <;> exact (noLine_quotaKept ⟨rfl, rfl, rfl⟩)
        · split at h
          · split at h
            · cases h
            · rename_i s2 hs2
              cases h
              have := read_noLine _ _ _ hs2
              exact noLine_quotaKept ⟨this.1, this.2.1, this.2.2⟩
          · split at h
            · split at h
              · cases h
              · rename_i s2 hs2
                cases h
                have := write_quotaKept _ _ _ hs2
                exact ⟨this.1, this.2⟩
            · split at h
              · cases h
              · rename_i s2 hs2
                cases h
                have := masterMode_noLine _ _ hs2
                exact noLine_quotaKept ⟨this.1, this.2.1, this.2.2⟩
theorem decodeAndExecute_quotaKept (s s1 : State) (c : Ctl)
    (h : decodeAndExecute s = .ok (s1, c)) : QuotaKept s s1 := by
  unfold decodeAndExecute at h
  dsimp only at h
  split at h
  · split at h
    · cases h
    · rename_i s2 hs2
      cases h
      have := masterMode_noLine _ _ hs2
      exact noLine_quotaKept ⟨this.1, this.2.1, this.2.2⟩
  · split at h
    · split at h
      · cases h
      · rename_i s2 hs2
        cases h
        have := masterMode_noLine _ _ hs2
        exact noLine_quotaKept ⟨this.1, this.2.1, this.2.2⟩
    · split at h
      · cases h
      · rename_i operandVA hVA
        split at h
        · cases h
        · rename_i s2 operandRA hs2
          have k2 := noLine_quotaKept (addressMap_noLine _ _ _ _ hs2)
          split at h
          · split at h
            · cases h
            · rename_i s3 hs3
              have k3 := noLine_quotaKept (masterMode_noLine _ _ hs3)
              split at h
              · cases h; exact quotaKept_trans k2 k3
              · split at h
                · split at h
                  · cases h
                  · rename_i s4 operandRA1 hs4
                    have k4 := noLine_quotaKept (addressMap_noLine _ _ _ _ hs4)
                    exact quotaKept_trans (quotaKept_trans k2 k3) (quotaKept_trans k4 (execute_quotaKept _ _ _ _ _ _ h))
                · cases h; exact quotaKept_trans k2 k3
          · exact quotaKept_trans k2 (execute_quotaKept _ _ _ _ _ _ h)

theorem checkOperandField_quotaKept (s s1 : State) (c : Ctl)
    (h : checkOperandField s = .ok (s1, c)) : QuotaKept s s1 := by
  unfold checkOperandField at h
  split at h
  · split at h
    · split at h
      · cases h
      · rename_i s2 hs2
        have k2 : QuotaKept s s2 := by
          have := masterMode_noLine _ _ hs2
          exact noLine_quotaKept ⟨this.1, this.2.1, this.2.2⟩
        split at h
        · cases h; exact k2
        · exact quotaKept_trans k2 (decodeAndExecute_quotaKept _ _ _ h)
    · exact decodeAndExecute_quotaKept _ _ _ h
  · exact decodeAndExecute_quotaKept _ _ _ h

theorem loopBody_quotaKept (s s1 : State) (c : Ctl)
    (h : loopBody s = .ok (s1, c)) : QuotaKept s s1 := by
  unfold loopBody at h
  split at h
  · cases h
  · rename_i s2 RA hs2
    have k2 := noLine_quotaKept (addressMap_noLine _ _ _ _ hs2)
    split at h
    · split at h
      · cases h
      · rename_i s3 hs3
        have k3 := noLine_quotaKept (masterMode_noLine _ _ hs3)
        split at h <;> cases h <;> exact quotaKept_trans k2 k3
    · split at h
      · cases h
      · have k3 := checkOperandField_quotaKept _ _ _ h
        exact quotaKept_trans k2 ⟨k3.1, k3.2⟩

/-- However long the loop runs, the line budget never grows. -/
theorem executeUserProgram_quotaKept (fuel : Nat) :
    ∀ s s1, (executeUserProgram fuel s = .finished s1 ∨ executeUserProgram fuel s = .unfinished s1)
      → QuotaKept s s1 := by
  induction fuel with
  | zero =>
    intro s s1 h
    simp only [executeUserProgram] at h
    split at h
    · rcases h with h | h
      · cases h; exact quotaKept_refl s
      · cases h
    · rcases h with h | h
      · cases h
      · cases h; exact quotaKept_refl s
  | succ k ih =>
    intro s s1 h
    simp only [executeUserProgram] at h
    split at h
    · rcases h with h | h
      · cases h; exact quotaKept_refl s
      · cases h
    · split at h
      · rcases h with h | h <;> cases h
      · rename_i s2 hs2
        have k2 := loopBody_quotaKept _ _ _ hs2
        rcases h with h | h
        · cases h; exact k2
        · cases h
      · rename_i s2 hs2
        exact quotaKept_trans (loopBody_quotaKept _ _ _ hs2) (ih _ _ h)

/-- C8. For every state and address `RA`, `write RA` first increments `LLC`. If the incremented
`LLC` exceeds `TLL`, it writes no output line, appends exactly one termination record, of error
2 with reason "Line Limit Exceeded", and sets `breakFlag`. If the incremented `LLC` is at most
`TLL` (and the ten words `M[RA..RA+9]` lie in memory), it appends exactly one output line and
leaves `breakFlag` as it was. Consequently, however long the execution loop runs from a state
with `LLC = 0` (the value `pcb.init` gives a new job), the number of output lines it adds is at
most `TLL` (none when `TLL` is negative). -/
theorem write_line_quota (s : State) (RA : Int) :
    (∀ s1, write s RA = .ok s1 → s1.pcb.LLC = s.pcb.LLC + 1) ∧
    (s.pcb.LLC + 1 > s.pcb.TLL →
      write s RA = .ok { s with
        pcb := { s.pcb with LLC := s.pcb.LLC + 1 }
        outputFile := s.outputFile ++
          [.abnormal 2 "Line Limit Exceeded" none s.IC s.IR s.C s.R
            s.pcb.TTL s.pcb.TTC s.pcb.TLL (s.pcb.LLC + 1)]
        breakFlag := true }) ∧
    (s.pcb.LLC + 1 ≤ s.pcb.TLL → 0 ≤ RA → RA + 9 < 300 →
      ∃ text, write s RA = .ok { s with
        pcb := { s.pcb with LLC := s.pcb.LLC + 1 }
        outputFile := s.outputFile ++ [.line text] }) ∧
    (s.pcb.LLC = 0 → ∀ fuel s1,
      (executeUserProgram fuel s = .finished s1 ∨ executeUserProgram fuel s = .unfinished s1) →
      (lineCount s1.outputFile : Int) ≤ lineCount s.outputFile + max s.pcb.TLL 0) := by
  refine ⟨?_, ?_, ?_, ?_⟩
  · intro s1 h
    unfold write at h
    dsimp only at h
    split at h
    · cases h; rfl
    · split at h
      · cases h
      · cases h; rfl
  · intro hgt
    unfold write
    dsimp only
    rw [if_pos hgt]
    rfl
  · intro hle h0 h9
    obtain ⟨text, ht⟩ := collectChars_of_range s.M RA 10 0 (by simpa using h0)
      (by push_cast; omega)
    refine ⟨text, ?_⟩
    unfold write
    dsimp only
    rw [if_neg (by omega)]
    simp only [ht]
  · intro hLLC fuel s1 h
    have k := executeUserProgram_quotaKept fuel s s1 h
    have hb := k.2
    simp only [lineBudget, hLLC, sub_zero] at hb
    have h1 : (lineCount s1.outputFile : Int) ≤ (lineCount s.outputFile + s.pcb.TLL.toNat : Nat) := by
      have : lineCount s1.outputFile ≤ lineCount s.outputFile + s.pcb.TLL.toNat := by omega
      exact_mod_cast this
    push_cast at h1
    omega

/-- C8 at the sample job: with `LLC = 0` and `TLL = 5`, `write 70` emits one line; with
`LLC = 5` it emits the "Line Limit Exceeded" record instead. -/
theorem write_line_quota_witness :
    (∃ text, write sampleState 70 = .ok { sampleState with
        pcb := { sampleState.pcb with LLC := sampleState.pcb.LLC + 1 }
        outputFile := sampleState.outputFile ++ [.line text] }) ∧
    write quotaUsedState 70 = .ok { quotaUsedState with
        pcb := { quotaUsedState.pcb with LLC := quotaUsedState.pcb.LLC + 1 }
        outputFile := quotaUsedState.outputFile ++
          [.abnormal 2 "Line Limit Exceeded" none quotaUsedState.IC quotaUsedState.IR
            quotaUsedState.C quotaUsedState.R quotaUsedState.pcb.TTL quotaUsedState.pcb.TTC
            quotaUsedState.pcb.TLL (quotaUsedState.pcb.LLC + 1)]
        breakFlag := true } :=
  ⟨(write_line_quota sampleState 70).2.2.1 (by decide) (by decide) (by decide),
   (write_line_quota quotaUsedState 70).2.1 (by decide)⟩

/-! ## Page faults -/

/-- C9, evaluated at a fault on the instruction fetch. The job `GD20` ten times runs its ten
instructions (page 2 gets frame 4 at the first one); then `IC = 10` lies in page 1, which is
unmapped, and `IR` still holds `GD20`. `addressMap IC` reports a page fault; `masterMode`
handles it without terminating the job and clears `PI`, but the frame it installs (9) goes
again to page 2, the page of the operand in `IR`; page 1 stays unmapped and the retried
`addressMap IC` reports the page fault again. -/
theorem fetch_fault_not_resolved :
    ∃ s s1 s2 s3,
      executeUserProgram 10 tenReadsState = .unfinished s ∧
      s.IC = 10 ∧ s.IR = ⟨'G', 'D', '2', '0'⟩ ∧ s.pcb.TTC = 11 ∧
      getWord s.M (s.PTR + 2) = .ok ⟨'4', '\x00', '\x00', '\x00'⟩ ∧
      addressMap s s.IC = .ok (s1, -1) ∧ s1.PI = 3 ∧
      masterMode s1 = .ok s2 ∧ s2.breakFlag = false ∧ s2.PI = 0 ∧ s2.IC = 10 ∧
      s2.pcb.TTC = 12 ∧
      getWord s2.M (s2.PTR + 2) = .ok ⟨'9', '\x00', '\x00', '\x00'⟩ ∧
      getWord s2.M (s2.PTR + 1) = .ok ⟨'*', '\x00', '\x00', '\x00'⟩ ∧
      addressMap s2 s2.IC = .ok (s3, -1) ∧ s3.PI = 3 :=
  ⟨_, _, _, _, rfl, rfl, rfl, rfl, rfl, rfl, rfl, rfl, rfl, rfl, rfl, rfl, rfl, rfl, rfl, rfl⟩

theorem findFrame_some (M : Memory) :
    ∀ rs f rest, findFrame M rs = some (f, rest) →
      f < 30 ∧ ∃ w, getWord M ((f : Int) * 10) = .ok w ∧ w.c0 = '\x00' := by
  intro rs
  induction rs with
  | nil => intro f rest h; cases h
  | cons r rs ih =>
    intro f rest h
    simp only [findFrame] at h
    split at h
    · exact ih f rest h
    · rename_i hocc
      cases h
      have hlt : allocateFrame r < 30 := Nat.mod_lt _ (by decide)
      refine ⟨hlt, ?_⟩
      obtain ⟨i, hi, hval⟩ := addrIndex_of_range ((allocateFrame r : Int) * 10)
        ⟨by positivity, by omega⟩
      have hidx : i = ⟨allocateFrame r * 10, by show r % 30 * 10 < 300; omega⟩ := by
        apply Fin.ext
        have : (i.val : Int) = ((allocateFrame r * 10 : Nat) : Int) := by
          rw [hval]; push_cast; rfl
        exact_mod_cast this
      refine ⟨M i, by simp only [getWord, hi], ?_⟩
      rw [hidx]
      simpa using hocc

/-- What `sprintf` leaves in a page-table entry reads back, as a C string, as the decimal text
of the frame number (frames are below 30, so the text and its null fit the word). -/
theorem cstr_sprintfWord (w : Word) (f : Nat) (h : f < 30) :
    cstr (sprintfWord w f).toList = decimal f := by
  interval_cases f <;> rfl

theorem getWord_setWord_same (M M1 : Memory) (a : Int) (w : Word)
    (h : setWord M a w = .ok M1) : getWord M1 a = .ok w := by
  unfold setWord at h
  unfold getWord
  split at h
  · rename_i i hi
    cases h
    simp only [hi, Function.update_same]
  · cases h

theorem getWord_setWord_other (M M1 : Memory) (a : Int) (w : Word)
    (h : setWord M a w = .ok M1) (k : Fin MEMORY_SIZE) (hk : (k.val : Int) ≠ a) :
    M1 k = M k := by
  unfold setWord at h
  split at h
  · rename_i i hi
    cases h
    have : k ≠ i := by
      intro e
      subst e
      simp only [addrIndex] at hi
      split at hi
      · cases hi
        apply hk
        show ((Int.toNat a : Nat) : Int) = a
        omega
      · cases hi
    simp only [Function.update_noteq this]
  · cases h

theorem setWord_of_range (M : Memory) (a : Int) (w : Word) (h : 0 ≤ a ∧ a < 300) :
    ∃ M1, setWord M a w = .ok M1 := by
  obtain ⟨i, hi, -⟩ := addrIndex_of_range a h
  exact ⟨Function.update M i w, by simp only [setWord, hi]⟩

theorem getWord_range (M : Memory) (a : Int) (w : Word) (h : getWord M a = .ok w) :
    0 ≤ a ∧ a < 300 := by
  unfold getWord at h
  split at h
  · rename_i i hi
    simp only [addrIndex] at hi
    split at hi
    · assumption
    · cases hi
  · cases h

/-- The operand of an instruction whose operand field is two digits. -/
theorem stoi_two_digits (d2 d3 : Char) (h2 : isdigit d2 = true) (h3 : isdigit d3 = true) :
    stoi [d2, d3] = some ((digitVal d2 * 10 + digitVal d3 : Nat) : Int) := by
  have hn2 : d2 ≠ '\x00' := by rintro rfl; revert h2; decide
  have hn3 : d3 ≠ '\x00' := by rintro rfl; revert h3; decide
  have hc : cstr [d2, d3] = d2 :: [d3] := by
    simp [cstr, List.takeWhile, hn2, hn3]
  have hv : readDigits 0 (d2 :: [d3]) = digitVal d2 * 10 + digitVal d3 := by
    simp [readDigits, h2, h3]
  have hb2 : digitVal d2 ≤ 9 := by
    simp only [isdigit, Bool.and_eq_true, decide_eq_true_eq] at h2
    simp only [digitVal]; omega
  have hb3 : digitVal d3 ≤ 9 := by
    simp only [isdigit, Bool.and_eq_true, decide_eq_true_eq] at h3
    simp only [digitVal]; omega
  rw [stoi_digit_head [d2, d3] d2 [d3] hc h2 (by rw [hv]; push_cast; omega), hv]

theorem serviceSI_breakFlag (s : State) (h : s.SI ≠ 3) :
    (serviceSI s).breakFlag = s.breakFlag := by
  unfold serviceSI
  split
  · dsimp only
    split
    · rfl
    · split
      · rfl
      · rfl
  · rfl
/-- A page fault on the operand of a `GD` or `SR` instruction, handled by `masterMode`: the
frame found is written into the page-table entry of the operand's page, `TTC` grows by one and
`PI` is cleared; the system block runs first and is the only other change. -/
theorem masterMode_operand_fault (s : State) (VA : Int) (pte : Word) (f : Nat)
    (rest : List Nat) (hTI : s.TI ≠ 2) (hPI : s.PI = 3)
    (hop : opcode s.IR = ['G', 'D'] ∨ opcode s.IR = ['S', 'R'])
    (hVA : stoi (operandStr s.IR) = some VA)
    (hpte : getWord s.M (s.PTR + Int.tdiv VA 10) = .ok pte)
    (hframe : findFrame s.M s.rands = some (f, rest)) :
    ∃ M1, setWord s.M (s.PTR + Int.tdiv VA 10) (sprintfWord pte f) = .ok M1 ∧
      masterMode s = .ok { serviceSI s with
        M := M1
        rands := rest
        console := s.console ++ [⟨f, VA⟩]
        pcb := { s.pcb with TTC := s.pcb.TTC + 1 }
        PI := 0 } := by
  obtain ⟨M1, hM1⟩ := setWord_of_range s.M (s.PTR + Int.tdiv VA 10) (sprintfWord pte f)
    (getWord_range _ _ _ hpte)
  obtain ⟨fPI, fTI, fM, fpcb, fIR, fR, fC, fIC, fPTR, frands, finput, fconsole, fSI, fcount⟩ :=
    serviceSI_frame s
  refine ⟨M1, hM1, ?_⟩
  have h30 : (3 : Int) ≠ 0 := by decide
  have h31 : (3 : Int) ≠ 1 := by decide
  have h32 : (3 : Int) ≠ 2 := by decide
  simp only [masterMode, hTI, if_false, servicePI, fPI, hPI, ne_eq, h30, h31, h32,
    not_false_eq_true, if_true, handlePageFault, fIR, hop, fM, frands, hframe, hVA, fPTR, hpte,
    hM1, fconsole, fpcb]
theorem digitVal_le_nine (c : Char) (h : isdigit c = true) : digitVal c ≤ 9 := by
  simp only [isdigit, Bool.and_eq_true, decide_eq_true_eq] at h
  simp only [digitVal]
  omega

/-- C10 (scenario D). For every running state (not terminated, no program or timer interrupt
pending, `SI` not the halt value: every state satisfying `Running`, the states in which the
loop body is entered) with `TTC < TTL`, whose instruction counter translates
without an interrupt to a word holding `SR` and a two-digit operand `VA`, whose page-table
entry `M[PTR + VA / 10]` is unmapped, and for every frame source from which the frame search
returns a frame `f`: `f` is below 30; one pass through the loop body first turns the entry
`M[PTR + VA / 10]` into the decimal text of `f` (memory `M1`), then stores `R` into
`M[f * 10 + VA % 10]` (memory `M2`, the memory after the pass), so no other word changes;
exactly one allocation is logged; `TTC` grows by exactly 2; the job is not terminated. -/
theorem store_page_fault (s : State) (RA VA : Int) (d2 d3 : Char) (pte : Word) (f : Nat)
    (rest : List Nat)
    (hrun : s.breakFlag = false) (hPI : s.PI = 0) (hTI : s.TI ≠ 2) (hSI : s.SI ≠ 3)
    (hTTC : s.pcb.TTC < s.pcb.TTL)
    (hfetch : addressMap s s.IC = .ok (s, RA))
    (hinstr : getWord s.M RA = .ok ⟨'S', 'R', d2, d3⟩)
    (hd2 : isdigit d2 = true) (hd3 : isdigit d3 = true)
    (hVA : VA = ((digitVal d2 * 10 + digitVal d3 : Nat) : Int))
    (hpte : getWord s.M (s.PTR + VA / 10) = .ok pte)
    (hstar : pte.c0 = '*')
    (hframe : findFrame s.M s.rands = some (f, rest)) :
    ∃ M1 M2 s1,
      f < 30 ∧
      setWord s.M (s.PTR + VA / 10) (sprintfWord pte f) = .ok M1 ∧
      cstr (sprintfWord pte f).toList = decimal f ∧
      setWord M1 ((f : Int) * 10 + VA % 10) s.R = .ok M2 ∧
      loopBody s = .ok (s1, .next) ∧
      s1.M = M2 ∧
      getWord s1.M ((f : Int) * 10 + VA % 10) = .ok s.R ∧
      (∀ k : Fin MEMORY_SIZE, (k.val : Int) ≠ s.PTR + VA / 10 →
        (k.val : Int) ≠ (f : Int) * 10 + VA % 10 → s1.M k = s.M k) ∧
      s1.console = s.console ++ [⟨f, VA⟩] ∧ s1.rands = rest ∧
      s1.pcb.TTC = s.pcb.TTC + 2 ∧ s1.breakFlag = false := by
  have hb2 := digitVal_le_nine d2 hd2
  have hb3 := digitVal_le_nine d3 hd3
  have hrange : 0 ≤ VA ∧ VA < 100 := by
    rw [hVA]; constructor
    · exact Int.natCast_nonneg _
    · have : digitVal d2 * 10 + digitVal d3 < 100 := by omega
      exact_mod_cast this
  have hf30 : f < 30 := (findFrame_some s.M s.rands f rest hframe).1
  have hstoi : stoi (operandStr ⟨'S', 'R', d2, d3⟩) = some VA := by
    rw [hVA]; exact stoi_two_digits d2 d3 hd2 hd3
  -- the state after the fetch
  obtain ⟨sA, hsA⟩ : ∃ sA : State, sA = { s with IR := ⟨'S', 'R', d2, d3⟩, IC := s.IC + 1 } :=
    ⟨_, rfl⟩
  -- the first translation of the operand faults
  have hmap1 : addressMap sA VA = .ok ({ sA with PI := 3 }, -1) :=
    addressMap_of_sentinel sA VA pte hrange (by rw [hsA]; exact hpte) hstar
  -- the interrupt controller resolves the fault
  obtain ⟨M1, hM1, hmm⟩ := masterMode_operand_fault { sA with PI := 3 } VA pte f rest
    (by rw [hsA]; exact hTI) rfl (by rw [hsA]; exact Or.inr rfl)
    (by rw [hsA]; exact hstoi)
    (by rw [hsA, tdiv_ten VA hrange.1]; exact hpte) (by rw [hsA]; exact hframe)
  rw [tdiv_ten VA hrange.1] at hM1
  replace hM1 : setWord s.M (s.PTR + VA / 10) (sprintfWord pte f) = .ok M1 := by
    rw [hsA] at hM1; exact hM1
  obtain ⟨fPI, fTI, fM, fpcb, fIR, fR, fC, fIC, fPTR, frands, finput, fconsole, fSI, fcount⟩ :=
    serviceSI_frame { sA with PI := 3 }
  have fbreak := serviceSI_breakFlag { sA with PI := 3 } (by rw [hsA]; exact hSI)
  obtain ⟨sE, hsE⟩ : ∃ sE : State, sE = { serviceSI { sA with PI := 3 } with
        M := M1
        rands := rest
        console := ({ sA with PI := 3 } : State).console ++ [⟨f, VA⟩]
        pcb := { ({ sA with PI := 3 } : State).pcb with
          TTC := ({ sA with PI := 3 } : State).pcb.TTC + 1 }
        PI := 0 } := ⟨_, rfl⟩
  rw [← hsE] at hmm
  have hEbreak : sE.breakFlag = false := by rw [hsE]; show (serviceSI _).breakFlag = false
                                            rw [fbreak, hsA]; exact hrun
  have hEM : sE.M = M1 := by rw [hsE]
  have hEPTR : sE.PTR = s.PTR := by rw [hsE]; show (serviceSI _).PTR = _; rw [fPTR, hsA]
  have hER : sE.R = s.R := by rw [hsE]; show (serviceSI _).R = _; rw [fR, hsA]
  have hETTC : sE.pcb.TTC = s.pcb.TTC + 1 := by rw [hsE, hsA]
  have hEcons : sE.console = s.console ++ [⟨f, VA⟩] := by rw [hsE, hsA]
  have hErands : sE.rands = rest := by rw [hsE]
  -- the second translation succeeds
  have htext := cstr_sprintfWord pte f hf30
  have hmap2 : addressMap sE VA = .ok (sE, (f : Int) * 10 + VA % 10) :=
    addressMap_of_stoi sE VA (sprintfWord pte f) f hrange
      (by rw [hEM, hEPTR]; exact getWord_setWord_same _ _ _ _ hM1)
      (present_of_decimal _ f htext) (stoi_entry_decimal _ f htext)
  -- the store
  have hmod : 0 ≤ VA % 10 ∧ VA % 10 < 10 := by omega
  obtain ⟨M2, hM2⟩ := setWord_of_range M1 ((f : Int) * 10 + VA % 10) s.R
    ⟨by omega, by omega⟩
  refine ⟨M1, M2, { sE with M := M2, pcb := { sE.pcb with TTC := sE.pcb.TTC + 1 } },
    hf30, hM1, htext, hM2, ?_, rfl, getWord_setWord_same _ _ _ _ hM2, ?_, hEcons, hErands,
    by show sE.pcb.TTC + 1 = _; rw [hETTC]; ring, hEbreak⟩
  · have hnotH : opcode sA.IR ≠ ['H', ' '] := by rw [hsA]; simp [opcode]
    have hSR : opcode sA.IR = ['S', 'R'] := by rw [hsA]; rfl
    have hAT : ¬ (sA.pcb.TTC ≥ sA.pcb.TTL) := by rw [hsA]; exact not_le.mpr hTTC
    have hdec : decodeAndExecute sA
        = .ok ({ sE with M := M2, pcb := { sE.pcb with TTC := sE.pcb.TTC + 1 } }, .next) := by
      have h30 : (3 : Int) ≠ 0 := by decide
      have hop : stoi (operandStr sA.IR) = some VA := by rw [hsA]; exact hstoi
      simp only [decodeAndExecute, hAT, if_false, hnotH, hop, hmap1, ne_eq, h30,
        not_false_eq_true, if_true, hmm, hEbreak, Bool.false_eq_true, hSR, or_true, hmap2,
        execute, List.cons.injEq, Char.reduceEq, and_false, false_and, and_true,
        hEM, hER, hM2, reduceCtorEq, and_self]
    have hcheck : checkOperandField sA = decodeAndExecute sA := by
      have hc0 : sA.IR.c0 ≠ 'H' := by rw [hsA]; simp
      have hc2 : sA.IR.c2 = d2 := by rw [hsA]
      have hc3 : sA.IR.c3 = d3 := by rw [hsA]
      simp only [checkOperandField, hc0, ne_eq, not_false_eq_true, if_true, hc2, hc3, hd2, hd3,
        Bool.not_true, Bool.and_self, Bool.false_eq_true, if_false]
    have hPI0 : ¬ (s.PI ≠ 0) := by simp [hPI]
    simp only [loopBody, hfetch, hPI0, if_false, hinstr]
    rw [← hsA, hcheck, hdec]
  · intro k hk1 hk2
    show M2 k = s.M k
    rw [getWord_setWord_other M1 M2 _ _ hM2 k hk2, getWord_setWord_other s.M M1 _ _ hM1 k hk1]
/-- C10 at the sample job: `SR34` fetched at virtual address 1 faults on page 3, frame 4 is
installed, and `ABCD` is stored at physical address 44. -/
theorem store_page_fault_witness :
    ∃ s1, loopBody storeFaultState = .ok (s1, .next) ∧
      getWord s1.M 44 = .ok ⟨'A', 'B', 'C', 'D'⟩ ∧
      s1.console = [⟨4, 34⟩] ∧ s1.pcb.TTC = 2 ∧ s1.breakFlag = false := by
  obtain ⟨M1, M2, s1, -, -, -, -, hloop, -, hget, -, hcons, -, hTTC, hbreak⟩ :=
    store_page_fault storeFaultState 71 34 '3' '4' ⟨'*', '\x00', '\x00', '\x00'⟩ 4 []
      rfl rfl (by decide) (by decide) (by decide) rfl rfl rfl rfl rfl rfl rfl rfl
  exact ⟨s1, hloop, hget, hcons, hTTC, hbreak⟩
/-! ## Running states -/

/-- The translator changes `PI` at most, and only to 2 or 3. -/
theorem addressMap_frame (s s1 : State) (VA r : Int) (h : addressMap s VA = .ok (s1, r)) :
    s1 = s ∨ (s1 = { s with PI := 2 } ∧ r = -1) ∨
      (s1 = { s with PI := 3 } ∧ r = -1 ∧ 0 ≤ VA ∧ VA < 100 ∧
        ∃ pte, getWord s.M (s.PTR + Int.tdiv VA 10) = .ok pte) := by
  unfold addressMap at h
  split at h
  · rename_i hv
    split at h
    · cases h
    · rename_i pte hpte
      split at h
      · cases h; exact Or.inr (Or.inr ⟨rfl, rfl, hv.1, hv.2, pte, hpte⟩)
      · split at h
        · cases h; exact Or.inl rfl
        · cases h; exact Or.inr (Or.inl ⟨rfl, rfl⟩)
  · cases h; exact Or.inr (Or.inl ⟨rfl, rfl⟩)

/-- When `masterMode` returns without a timer interrupt and without terminating the job, no
interrupt is left pending; a program interrupt it found was a page fault, resolved by the
fault handler on a `GD` or `SR` instruction. -/
theorem masterMode_resumes (s s1 : State) (hTI : s.TI = 0)
    (hPI : s.PI = 0 ∨ s.PI = 1 ∨ s.PI = 2 ∨ s.PI = 3)
    (h : masterMode s = .ok s1) (hb : s1.breakFlag = false) :
    s1.PI = 0 ∧ s1.SI = 0 ∧ s1.TI = 0 ∧ (s.PI = 0 ∨ s.PI = 3) ∧
    (s.PI ≠ 0 → (opcode s.IR = ['G', 'D'] ∨ opcode s.IR = ['S', 'R']) ∧
      ∃ t, handlePageFault (serviceSI s) = .ok t ∧ s1 = { t with PI := 0 }) := by
  obtain ⟨fPI, fTI, fM, fpcb, fIR, fR, fC, fIC, fPTR, frands, finput, fconsole, fSI, fcount⟩ :=
    serviceSI_frame s
  have hTI2 : s.TI ≠ 2 := by rw [hTI]; decide
  simp only [masterMode, hTI2, if_false, servicePI, fPI] at h
  rcases hPI with h0 | h1 | h2 | h3
  · simp only [h0, ne_eq, not_true_eq_false, if_false] at h
    cases h
    exact ⟨by rw [fPI, h0], fSI, by rw [fTI, hTI], Or.inl h0, fun hc => absurd h0 hc⟩
  · simp only [h1, ne_eq, one_ne_zero, not_false_eq_true, if_true] at h
    cases h
    cases hb
  · have h21 : (2 : Int) ≠ 1 := by decide
    have h20 : (2 : Int) ≠ 0 := by decide
    simp only [h2, ne_eq, h20, not_false_eq_true, if_true, h21, if_false] at h
    cases h
    cases hb
  · have h30 : (3 : Int) ≠ 0 := by decide
    have h31 : (3 : Int) ≠ 1 := by decide
    have h32 : (3 : Int) ≠ 2 := by decide
    simp only [h3, ne_eq, h30, not_false_eq_true, if_true, h31, h32, if_false] at h
    split at h
    · cases h
    · rename_i t ht
      cases h
      obtain ⟨gSI, gPI, gTI, -⟩ := handlePageFault_frame _ _ ht
      refine ⟨rfl, by show t.SI = 0; rw [gSI, fSI], by show t.TI = 0; rw [gTI, fTI, hTI],
        Or.inr h3, ?_⟩
      intro _
      refine ⟨?_, t, ht, rfl⟩
      by_contra hop
      rw [← fIR] at hop
      unfold handlePageFault at ht
      rw [if_neg hop] at ht
      cases ht
      cases hb

theorem read_interrupts (s s1 : State) (RA : Int) (h : read s RA = .ok s1) :
    s1.PI = s.PI ∧ s1.TI = s.TI ∧ s1.SI = s.SI := by
  unfold read at h
  split at h
  · cases h; exact ⟨rfl, rfl, rfl⟩
  · dsimp only at h
    split at h
    · cases h; exact ⟨rfl, rfl, rfl⟩
    · split at h
      · cases h
      · cases h; exact ⟨rfl, rfl, rfl⟩

theorem write_interrupts (s s1 : State) (RA : Int) (h : write s RA = .ok s1) :
    s1.PI = s.PI ∧ s1.TI = s.TI ∧ s1.SI = s.SI := by
  unfold write at h
  dsimp only at h
  split at h
  · cases h; exact ⟨rfl, rfl, rfl⟩
  · split at h
    · cases h
    · cases h; exact ⟨rfl, rfl, rfl⟩

/-- The execution of a decoded instruction keeps a running job running. -/
theorem execute_running (s s1 : State) (op : List Char) (va ra : Int) (c : Ctl)
    (hr : Running s) (h : execute s op va ra = .ok (s1, c)) (hb : s1.breakFlag = false) :
    Running s1 := by
  obtain ⟨rb, rPI, rTI, rSI⟩ := hr
  unfold execute at h
  split at h
  · split at h
    · cases h
    · cases h; exact ⟨rb, rPI, rTI, rSI⟩
  · split at h
    · split at h
      · cases h
      · cases h; exact ⟨rb, rPI, rTI, rSI⟩
    · split at h
      · split at h
        · cases h
        · cases h; exact ⟨rb, rPI, rTI, rSI⟩
      · split at h
        · dsimp only at h
          cases h
          split <;> exact ⟨rb, rPI, rTI, rSI⟩
        · split at h
          · split at h
            · cases h
            · rename_i s2 hs2
              cases h
              obtain ⟨gPI, gTI, gSI⟩ := read_interrupts _ _ _ hs2
              exact ⟨hb, by show s2.PI = 0; rw [gPI]; exact rPI,
                by show s2.TI = 0; rw [gTI]; exact rTI,
                Or.inr (Or.inl (by show s2.SI = 1; rw [gSI]))⟩
          · split at h
            · split at h
              · cases h
              · rename_i s2 hs2
                cases h
                obtain ⟨gPI, gTI, gSI⟩ := write_interrupts _ _ _ hs2
                exact ⟨hb, by show s2.PI = 0; rw [gPI]; exact rPI,
                  by show s2.TI = 0; rw [gTI]; exact rTI,
                  Or.inr (Or.inr (by show s2.SI = 2; rw [gSI]))⟩
            · split at h
              · cases h
              · rename_i s2 hs2
                cases h
                have := (masterMode_resumes _ _ (by exact rTI) (Or.inr (Or.inl rfl)) hs2 hb).2.2.2.1
                rcases this with h0 | h3
                · exact absurd h0 (by show (1 : Int) ≠ 0; decide)
                · exact absurd h3 (by show (1 : Int) ≠ 3; decide)
/-- The operand half of page-fault resolution: when `masterMode` has handled a page fault on
the operand `VA` of the instruction in `IR` without terminating the job, translating `VA`
again succeeds, through a frame below 30, and raises no interrupt. -/
theorem operand_fault_resolved (s s1 : State) (VA : Int) (hTI : s.TI = 0) (hPI : s.PI = 3)
    (hVA : stoi (operandStr s.IR) = some VA) (hv : 0 ≤ VA ∧ VA < 100)
    (h : masterMode s = .ok s1) (hb : s1.breakFlag = false) :
    ∃ f : Nat, f < 30 ∧ addressMap s1 VA = .ok (s1, (f : Int) * 10 + VA % 10) := by
  obtain ⟨-, -, -, -, hres⟩ := masterMode_resumes s s1 hTI (Or.inr (Or.inr (Or.inr hPI))) h hb
  obtain ⟨hop, t, ht, rfl⟩ := hres (by rw [hPI]; decide)
  obtain ⟨fPI, fTI, fM, fpcb, fIR, fR, fC, fIC, fPTR, frands, finput, fconsole, fSI, fcount⟩ :=
    serviceSI_frame s
  obtain ⟨frame, rest, VA1, old, M1, hfind, hVA1, hold, hM1, rfl⟩ :=
    handlePageFault_pageable (serviceSI s) t (by rw [fIR]; exact hop) ht
  rw [fIR, hVA] at hVA1
  cases hVA1
  have hf30 := (findFrame_some _ _ _ _ hfind).1
  have htext := cstr_sprintfWord old frame hf30
  rw [tdiv_ten VA hv.1] at hM1
  exact ⟨frame, hf30, addressMap_of_stoi _ VA (sprintfWord old frame) frame hv
    (getWord_setWord_same _ _ _ _ hM1) (present_of_decimal _ frame htext)
    (stoi_entry_decimal _ frame htext)⟩

theorem decodeAndExecute_running (s s1 : State) (hr : Running s)
    (h : decodeAndExecute s = .ok (s1, .next)) (hb : s1.breakFlag = false) : Running s1 := by
  obtain ⟨rb, rPI, rTI, rSI⟩ := hr
  unfold decodeAndExecute at h
  dsimp only at h
  split at h
  · split at h <;> cases h
  · split at h
    · split at h <;> cases h
    · split at h
      · cases h
      · rename_i operandVA hVA
        split at h
        · cases h
        · rename_i s2 operandRA hs2
          rcases addressMap_frame _ _ _ _ hs2 with e | ⟨e, -⟩ | ⟨e, -, hv0, hv1, -⟩
          · subst e
            rw [if_neg (by simp [rPI])] at h
            exact execute_running _ _ _ _ _ _ ⟨rb, rPI, rTI, rSI⟩ h hb
          · subst e
            rw [if_pos (by show (2 : Int) ≠ 0; decide)] at h
            split at h
            · cases h
            · rename_i s3 hs3
              split at h
              · cases h
              · rename_i hb3
                have hb3' : s3.breakFlag = false := by simpa using hb3
                have := (masterMode_resumes _ _ (by exact rTI) (Or.inr (Or.inr (Or.inl rfl)))
                  hs3 hb3').2.2.2.1
                rcases this with h0 | h3
                · exact absurd h0 (by show (2 : Int) ≠ 0; decide)
                · exact absurd h3 (by show (2 : Int) ≠ 3; decide)
          · subst e
            rw [if_pos (by show (3 : Int) ≠ 0; decide)] at h
            split at h
            · cases h
            · rename_i s3 hs3
              split at h
              · cases h
              · rename_i hb3
                have hb3' : s3.breakFlag = false := by simpa using hb3
                obtain ⟨qPI, qSI, qTI, -, -⟩ := masterMode_resumes _ _ (by exact rTI)
                  (Or.inr (Or.inr (Or.inr rfl))) hs3 hb3'
                split at h
                · obtain ⟨f, -, hmap⟩ := operand_fault_resolved _ s3 operandVA (by exact rTI) rfl
                    (by exact hVA) ⟨hv0, hv1⟩ hs3 hb3'
                  rw [hmap] at h
                  exact execute_running _ _ _ _ _ _ ⟨hb3', qPI, qTI, Or.inl qSI⟩ h hb
                · cases h
                  exact ⟨hb3', qPI, qTI, Or.inl qSI⟩

theorem checkOperandField_running (s s1 : State) (hr : Running s)
    (h : checkOperandField s = .ok (s1, .next)) (hb : s1.breakFlag = false) : Running s1 := by
  unfold checkOperandField at h
  split at h
  · split at h
    · split at h
      · cases h
      · rename_i s2 hs2
        split at h
        · cases h
        · rename_i hb2
          have hb2' : s2.breakFlag = false := by simpa using hb2
          have := (masterMode_resumes _ _ (by exact hr.2.2.1) (Or.inr (Or.inr (Or.inl rfl)))
            hs2 hb2').2.2.2.1
          rcases this with h0 | h3
          · exact absurd h0 (by show (2 : Int) ≠ 0; decide)
          · exact absurd h3 (by show (2 : Int) ≠ 3; decide)
    · exact decodeAndExecute_running s s1 hr h hb
  · exact decodeAndExecute_running s s1 hr h hb

/-- A pass through the loop body that does not end the job leaves it in a running state: the
states named by `Running` are the only ones in which the body is ever entered once it has
been entered in one. -/
theorem loopBody_running (s s1 : State) (hr : Running s)
    (h : loopBody s = .ok (s1, .next)) (hb : s1.breakFlag = false) : Running s1 := by
  obtain ⟨rb, rPI, rTI, rSI⟩ := hr
  unfold loopBody at h
  split at h
  · cases h
  · rename_i s2 RA hs2
    rcases addressMap_frame _ _ _ _ hs2 with e | ⟨e, -⟩ | ⟨e, -⟩
    · subst e
      rw [if_neg (by simp [rPI])] at h
      split at h
      · cases h
      · exact checkOperandField_running _ s1 ⟨by exact rb, by exact rPI, by exact rTI,
          by exact rSI⟩ h hb
    · subst e
      rw [if_pos (by show (2 : Int) ≠ 0; decide)] at h
      split at h
      · cases h
      · rename_i s3 hs3
        split at h
        · cases h
        · cases h
          have := (masterMode_resumes _ _ (by exact rTI) (Or.inr (Or.inr (Or.inl rfl)))
            hs3 hb).2.2.2.1
          rcases this with h0 | h3
          · exact absurd h0 (by show (2 : Int) ≠ 0; decide)
          · exact absurd h3 (by show (2 : Int) ≠ 3; decide)
    · subst e
      rw [if_pos (by show (3 : Int) ≠ 0; decide)] at h
      split at h
      · cases h
      · rename_i s3 hs3
        split at h
        · cases h
        · cases h
          obtain ⟨qPI, qSI, qTI, -, -⟩ := masterMode_resumes _ _ (by exact rTI)
            (Or.inr (Or.inr (Or.inr rfl))) hs3 hb
          exact ⟨hb, qPI, qTI, Or.inl qSI⟩
/-! ## The fault handler's eligibility test -/

/-- C11. For every state, when the opcode of the instruction in `IR` is neither `GD` nor `SR`
the fault handler returns the state with the record of error 6, "Invalid Page Fault", appended
and `breakFlag` set, and nothing else changed: no page-table entry installed, memory and `TTC`
as before. When the opcode is `GD` or `SR`, whatever the handler returns has `breakFlag` and
the output file as they were: the job is not terminated and no termination record is written.
So a returning call terminates the job with "Invalid Page Fault" exactly when the opcode is
not demand-pageable. -/
theorem handlePageFault_eligibility (s : State) :
    (¬ (opcode s.IR = ['G', 'D'] ∨ opcode s.IR = ['S', 'R']) →
      handlePageFault s = .ok { s with
        outputFile := s.outputFile ++
          [.abnormal 6 "Invalid Page Fault" none s.IC s.IR s.C s.R
            s.pcb.TTL s.pcb.TTC s.pcb.TLL s.pcb.LLC]
        breakFlag := true }) ∧
    ((opcode s.IR = ['G', 'D'] ∨ opcode s.IR = ['S', 'R']) →
      ∀ s1, handlePageFault s = .ok s1 →
        s1.breakFlag = s.breakFlag ∧ s1.outputFile = s.outputFile) ∧
    (∀ s1, handlePageFault s = .ok s1 →
      ((s1.breakFlag = true ∧
          s1.outputFile = s.outputFile ++
            [.abnormal 6 "Invalid Page Fault" none s.IC s.IR s.C s.R
              s.pcb.TTL s.pcb.TTC s.pcb.TLL s.pcb.LLC] ∧
          s1.M = s.M ∧ s1.pcb = s.pcb)
        ↔ ¬ (opcode s.IR = ['G', 'D'] ∨ opcode s.IR = ['S', 'R']))) := by
  have hno : ¬ (opcode s.IR = ['G', 'D'] ∨ opcode s.IR = ['S', 'R']) →
      handlePageFault s = .ok { s with
        outputFile := s.outputFile ++
          [.abnormal 6 "Invalid Page Fault" none s.IC s.IR s.C s.R
            s.pcb.TTL s.pcb.TTC s.pcb.TLL s.pcb.LLC]
        breakFlag := true } := by
    intro hop
    unfold handlePageFault
    rw [if_neg hop]
    rfl
  have hyes : (opcode s.IR = ['G', 'D'] ∨ opcode s.IR = ['S', 'R']) →
      ∀ s1, handlePageFault s = .ok s1 →
        s1.breakFlag = s.breakFlag ∧ s1.outputFile = s.outputFile := by
    intro hop s1 h
    obtain ⟨frame, rest, VA, old, M1, -, -, -, -, rfl⟩ := handlePageFault_pageable s s1 hop h
    exact ⟨rfl, rfl⟩
  refine ⟨hno, hyes, ?_⟩
  intro s1 h
  constructor
  · rintro ⟨-, hout, -, -⟩ hop
    have := (hyes hop s1 h).2
    rw [this] at hout
    have hlen := congrArg List.length hout
    simp at hlen
  · intro hop
    rw [hno hop] at h
    cases h
    exact ⟨rfl, rfl, rfl, rfl⟩

/-- C11 at the sample job: `IR` is empty there, so its opcode is not demand-pageable. -/
theorem handlePageFault_eligibility_witness :
    handlePageFault sampleState = .ok { sampleState with
      outputFile := sampleState.outputFile ++
        [.abnormal 6 "Invalid Page Fault" none sampleState.IC sampleState.IR sampleState.C
          sampleState.R sampleState.pcb.TTL sampleState.pcb.TTC sampleState.pcb.TLL
          sampleState.pcb.LLC]
      breakFlag := true } :=
  (handlePageFault_eligibility sampleState).1 (by decide)
/-! ## Unknown opcodes -/

/-- A pass whose fetch succeeds continues with the operand-field check on the fetched word. -/
theorem loopBody_fetch (s : State) (RA : Int) (w : Word) (hPI : s.PI = 0)
    (hfetch : addressMap s s.IC = .ok (s, RA)) (hw : getWord s.M RA = .ok w) :
    loopBody s = checkOperandField { s with IR := w, IC := s.IC + 1 } := by
  have hPI0 : ¬ (s.PI ≠ 0) := by simp [hPI]
  simp only [loopBody, hfetch, hPI0, if_false, hw]

/-- An instruction whose operand field is two digits passes the operand-field check. -/
theorem checkOperandField_digits (s : State) (h2 : isdigit s.IR.c2 = true)
    (h3 : isdigit s.IR.c3 = true) : checkOperandField s = decodeAndExecute s := by
  unfold checkOperandField
  split
  · simp [h2, h3]
  · rfl

/-- With no timer interrupt, a pending program interrupt 1 or 2 makes `masterMode` write the
record of error 4 or 5 after the system block and set `breakFlag`. -/
theorem masterMode_program_error (s : State) (hTI : s.TI ≠ 2) (hPI : s.PI = 1 ∨ s.PI = 2) :
    masterMode s = .ok { terminate (serviceSI s) (s.PI + 3) (-1) with breakFlag := true } := by
  have fPI := (serviceSI_frame s).1
  rcases hPI with h | h
  · simp only [masterMode, hTI, if_false, servicePI, fPI, h, ne_eq, one_ne_zero,
      not_false_eq_true, if_true]
    rfl
  · have h20 : (2 : Int) ≠ 0 := by decide
    have h21 : (2 : Int) ≠ 1 := by decide
    simp only [masterMode, hTI, if_false, servicePI, fPI, h, ne_eq, h20, h21,
      not_false_eq_true, if_true]
    rfl

/-- With no timer interrupt, a pending page fault on an instruction that is neither `GD` nor
`SR` makes `masterMode` write the record of error 6 after the system block, set `breakFlag`
and clear `PI`. -/
theorem masterMode_invalid_fault (s : State) (hTI : s.TI ≠ 2) (hPI : s.PI = 3)
    (hop : ¬ (opcode s.IR = ['G', 'D'] ∨ opcode s.IR = ['S', 'R'])) :
    masterMode s
      = .ok { terminate (serviceSI s) 6 (-1) with breakFlag := true, PI := 0 } := by
  obtain ⟨fPI, -, -, -, fIR, -⟩ := serviceSI_frame s
  have h30 : (3 : Int) ≠ 0 := by decide
  have h31 : (3 : Int) ≠ 1 := by decide
  have h32 : (3 : Int) ≠ 2 := by decide
  have hop1 : ¬ (opcode (serviceSI s).IR = ['G', 'D'] ∨ opcode (serviceSI s).IR = ['S', 'R']) := by
    rw [fIR]; exact hop
  simp only [masterMode, hTI, if_false, servicePI, fPI, hPI, ne_eq, h30, h31, h32,
    not_false_eq_true, if_true, handlePageFault, hop1]

/-- The system block does nothing but clear `SI` when `SI` is 0 or 1. -/
theorem serviceSI_quiet (s : State) (h : s.SI = 0 ∨ s.SI = 1) :
    serviceSI s = { s with SI := 0 } := by
  unfold serviceSI
  rcases h with h | h
  · simp only [h, ne_eq, not_true_eq_false, if_false]
    cases s
    simp_all
  · simp only [h, ne_eq, one_ne_zero, not_false_eq_true, if_true]
/-- C12, refuted as stated: the job `XX20 H`, whose first instruction has an unknown opcode and
the operand 20 in the unmapped page 2, terminates in its first pass with the single record
"Invalid Page Fault", not "Operation Code Error". -/
theorem unknown_opcode_counterexample :
    ∃ s, executeUserProgram 1 unknownOpcodeState = .finished s ∧
      s.IR = ⟨'X', 'X', '2', '0'⟩ ∧ s.breakFlag = true ∧
      s.outputFile
        = [.abnormal 6 "Invalid Page Fault" none 1 ⟨'X', 'X', '2', '0'⟩ false nullWord
            50 0 5 0] :=
  ⟨_, rfl, rfl, rfl, by decide⟩

/-- C12, amended (scenario B). For every running state with `TTC < TTL` whose fetched
instruction has an opcode outside `GD`, `PD`, `LR`, `SR`, `CR`, `BT` and `H` followed by a
blank, and a two-digit operand `VA`: when the page-table entry of the operand's page is
mapped (present, and `stoi` reads a number in it), the pass raises Program Interrupt 1 and
terminates the job, the last termination record being "Operation Code Error", and the only
one when `SI` is 0 or 1; memory and the quota counters are unchanged. When the entry is
unmapped, the page fault is dispatched before the opcode is looked at and the job terminates
with "Invalid Page Fault" instead. -/
theorem unknown_opcode (s : State) (RA VA : Int) (o0 o1 d2 d3 : Char) (pte : Word)
    (hr : Running s) (hTTC : s.pcb.TTC < s.pcb.TTL)
    (hfetch : addressMap s s.IC = .ok (s, RA))
    (hinstr : getWord s.M RA = .ok ⟨o0, o1, d2, d3⟩)
    (hop : [o0, o1] ∉ [['G', 'D'], ['P', 'D'], ['L', 'R'], ['S', 'R'], ['C', 'R'], ['B', 'T'],
      ['H', ' ']])
    (hd2 : isdigit d2 = true) (hd3 : isdigit d3 = true)
    (hVA : VA = ((digitVal d2 * 10 + digitVal d3 : Nat) : Int))
    (hpte : getWord s.M (s.PTR + VA / 10) = .ok pte) :
    (pte.c0 ≠ '*' → (∃ frame, stoi pte.toList = some frame) →
      ∃ s1, loopBody s = .ok (s1, .next) ∧ s1.PI = 1 ∧ s1.breakFlag = true ∧
        s1.outputFile.getLast? = some (.abnormal 4 "Operation Code Error" none (s.IC + 1)
          ⟨o0, o1, d2, d3⟩ s.C s.R s.pcb.TTL s.pcb.TTC s.pcb.TLL s.pcb.LLC) ∧
        (s.SI = 0 ∨ s.SI = 1 → s1.outputFile = s.outputFile ++
          [.abnormal 4 "Operation Code Error" none (s.IC + 1)
            ⟨o0, o1, d2, d3⟩ s.C s.R s.pcb.TTL s.pcb.TTC s.pcb.TLL s.pcb.LLC]) ∧
        s1.M = s.M ∧ s1.pcb = s.pcb) ∧
    (pte.c0 = '*' →
      ∃ s1, loopBody s = .ok (s1, .exit) ∧ s1.breakFlag = true ∧
        s1.outputFile.getLast? = some (.abnormal 6 "Invalid Page Fault" none (s.IC + 1)
          ⟨o0, o1, d2, d3⟩ s.C s.R s.pcb.TTL s.pcb.TTC s.pcb.TLL s.pcb.LLC) ∧
        (s.SI = 0 ∨ s.SI = 1 → s1.outputFile = s.outputFile ++
          [.abnormal 6 "Invalid Page Fault" none (s.IC + 1)
            ⟨o0, o1, d2, d3⟩ s.C s.R s.pcb.TTL s.pcb.TTC s.pcb.TLL s.pcb.LLC]) ∧
        s1.M = s.M ∧ s1.pcb = s.pcb) := by
  obtain ⟨rb, rPI, rTI, rSI⟩ := hr
  simp only [List.mem_cons, List.mem_singleton, List.not_mem_nil, or_false, not_or] at hop
  obtain ⟨nGD, nPD, nLR, nSR, nCR, nBT, nH⟩ := hop
  have hb2 := digitVal_le_nine d2 hd2
  have hb3 := digitVal_le_nine d3 hd3
  have hrange : 0 ≤ VA ∧ VA < 100 := by
    rw [hVA]; constructor
    · exact Int.natCast_nonneg _
    · have : digitVal d2 * 10 + digitVal d3 < 100 := by omega
      exact_mod_cast this
  obtain ⟨sA, hsA⟩ : ∃ sA : State, sA = { s with IR := ⟨o0, o1, d2, d3⟩, IC := s.IC + 1 } :=
    ⟨_, rfl⟩
  have hloop : loopBody s = decodeAndExecute sA := by
    rw [loopBody_fetch s RA _ rPI hfetch hinstr, ← hsA]
    exact checkOperandField_digits sA (by rw [hsA]; exact hd2) (by rw [hsA]; exact hd3)
  have hstoi : stoi (operandStr sA.IR) = some VA := by
    rw [hsA, hVA]; exact stoi_two_digits d2 d3 hd2 hd3
  have hAT : ¬ (sA.pcb.TTC ≥ sA.pcb.TTL) := by rw [hsA]; exact not_le.mpr hTTC
  have hopc : opcode sA.IR = [o0, o1] := by rw [hsA]; rfl
  have hTI2 : s.TI ≠ 2 := by rw [rTI]; decide
  have hrec : ∀ e : Int, e ≠ 0 → ∀ t : State, t.IC = s.IC + 1 → t.IR = ⟨o0, o1, d2, d3⟩ →
      t.C = s.C → t.R = s.R → t.pcb = s.pcb →
      terminateRecord (serviceSI t) e (-1) = .abnormal e (errorMessage e) none (s.IC + 1)
        ⟨o0, o1, d2, d3⟩ s.C s.R s.pcb.TTL s.pcb.TTC s.pcb.TLL s.pcb.LLC := by
    intro e he t h1 h2 h3 h4 h5
    obtain ⟨-, -, -, fpcb, fIR, fR, fC, fIC, -⟩ := serviceSI_frame t
    simp [terminateRecord, he, fpcb, fIR, fR, fC, fIC, h1, h2, h3, h4, h5]
  constructor
  · intro hpresent ⟨frame, hframe⟩
    have hmap : addressMap sA VA = .ok (sA, frame * 10 + VA % 10) :=
      addressMap_of_stoi sA VA pte frame hrange (by rw [hsA]; exact hpte) hpresent hframe
    have hPIA : ¬ (sA.PI ≠ 0) := by rw [hsA]; simp [rPI]
    have hmm := masterMode_program_error { sA with PI := 1 } (by rw [hsA]; exact hTI2)
      (Or.inl rfl)
    have hdec : decodeAndExecute sA = .ok
        ({ terminate (serviceSI { sA with PI := 1 }) 4 (-1) with breakFlag := true }, .next) := by
      simp only [decodeAndExecute, hAT, if_false, hopc, nH, hstoi, hmap, hPIA, execute, nLR, nSR,
        nCR, nBT, nGD, nPD, hmm]
      rfl
    have hR := hrec 4 (by decide) { sA with PI := 1 } (by rw [hsA]) (by rw [hsA])
      (by rw [hsA]) (by rw [hsA]) (by rw [hsA])
    obtain ⟨fPI, -, fM, fpcb, -⟩ := serviceSI_frame { sA with PI := 1 }
    refine ⟨_, hloop.trans hdec, ?_, rfl, ?_, ?_, ?_, ?_⟩
    · show (serviceSI _).PI = 1
      rw [fPI]
    · show (((serviceSI _).outputFile ++ [_]).getLast?) = _
      rw [List.getLast?_append, hR]
      rfl
    · intro hSI
      show (serviceSI _).outputFile ++ [_] = _
      rw [hR, serviceSI_quiet _ (by rw [hsA]; exact hSI), hsA]
      rfl
    · show (serviceSI _).M = _
      rw [fM, hsA]
    · show (serviceSI _).pcb = _
      rw [fpcb, hsA]
  · intro hstar
    have hmap : addressMap sA VA = .ok ({ sA with PI := 3 }, -1) :=
      addressMap_of_sentinel sA VA pte hrange (by rw [hsA]; exact hpte) hstar
    have hmm := masterMode_invalid_fault { sA with PI := 3 } (by rw [hsA]; exact hTI2) rfl
      (by show ¬ (opcode sA.IR = _ ∨ opcode sA.IR = _); rw [hopc]; exact not_or.mpr ⟨nGD, nSR⟩)
    have h30 : (3 : Int) ≠ 0 := by decide
    have hdec : decodeAndExecute sA = .ok
        ({ terminate (serviceSI { sA with PI := 3 }) 6 (-1) with
            breakFlag := true, PI := 0 }, .exit) := by
      simp only [decodeAndExecute, hAT, if_false, hopc, nH, hstoi, hmap, ne_eq, h30,
        not_false_eq_true, if_true, hmm]
    have hR := hrec 6 (by decide) { sA with PI := 3 } (by rw [hsA]) (by rw [hsA])
      (by rw [hsA]) (by rw [hsA]) (by rw [hsA])
    obtain ⟨fPI, -, fM, fpcb, -⟩ := serviceSI_frame { sA with PI := 3 }
    refine ⟨_, hloop.trans hdec, rfl, ?_, ?_, ?_, ?_⟩
    · show (((serviceSI _).outputFile ++ [_]).getLast?) = _
      rw [List.getLast?_append, hR]
      rfl
    · intro hSI
      show (serviceSI _).outputFile ++ [_] = _
      rw [hR, serviceSI_quiet _ (by rw [hsA]; exact hSI), hsA]
      rfl
    · show (serviceSI _).M = _
      rw [fM, hsA]
    · show (serviceSI _).pcb = _
      rw [fpcb, hsA]
/-- C12 amended, at the job `XX05 H`: the operand lies in the mapped page 0 and the pass ends
with the single record "Operation Code Error". -/
theorem unknown_opcode_witness :
    ∃ s1, loopBody unknownOpcodeMappedState = .ok (s1, .next) ∧ s1.PI = 1 ∧
      s1.breakFlag = true ∧
      s1.outputFile = [.abnormal 4 "Operation Code Error" none 1 ⟨'X', 'X', '0', '5'⟩ false
        nullWord 50 0 5 0] := by
  obtain ⟨s1, hloop, hPI, hb, -, hout, -, -⟩ :=
    (unknown_opcode unknownOpcodeMappedState 70 5 'X' 'X' '0' '5' ⟨'7', '\x00', '\x00', '\x00'⟩
      ⟨rfl, rfl, rfl, Or.inl rfl⟩ (by decide) rfl rfl (by decide) rfl rfl rfl rfl).1
      (by decide) ⟨7, by decide⟩
  exact ⟨s1, hloop, hPI, hb, hout (Or.inl rfl)⟩
/-! ## Reading past the data -/

/-- The end-marker half of scenario C: when the next input line contains `$END`, `read`
consumes it, writes the record of error 1, "Out of Data", sets `breakFlag` and leaves memory
alone; the loop, finding `breakFlag` set, makes no further pass. -/
theorem read_end_marker (s : State) (RA : Int) (line : List Char) (rest : List (List Char))
    (hin : s.inputFile = line :: rest) (hend : containsSub ['$', 'E', 'N', 'D'] line = true) :
    read s RA = .ok { s with
        inputFile := rest
        outputFile := s.outputFile ++
          [.abnormal 1 "Out of Data" none s.IC s.IR s.C s.R s.pcb.TTL s.pcb.TTC s.pcb.TLL
            s.pcb.LLC]
        breakFlag := true } ∧
      ∀ fuel s1, s1.breakFlag = true → executeUserProgram fuel s1 = .finished s1 := by
  constructor
  · unfold read
    rw [hin]
    simp only [hend, if_true]
    rfl
  · intro fuel s1 hb
    cases fuel <;> simp [executeUserProgram, hb]

/-- C13, evaluated at an exhausted input stream. With no line left, `read` returns the state
as it is: no record, `breakFlag` not set. The job `GD20 PD20 H` run without any data line
executes all three instructions: `GD20` counts as executed, `PD20` prints an empty line, and
the job ends with the normal termination record, not with "Out of Data". -/
theorem read_exhausted_evaluation :
    noDataState.inputFile = [] ∧
    (∃ s1, read noDataState 40 = .ok s1 ∧ s1.breakFlag = false ∧ s1.outputFile = []) ∧
    ∃ s, executeUserProgram 3 noDataState = .finished s ∧
      s.pcb.TTC = 3 ∧
      s.outputFile = [.line [], .normal "No Error"] :=
  ⟨rfl, ⟨_, rfl, rfl, rfl⟩, _, rfl, rfl, by decide⟩
/-! ## The operand-field check -/

/-- The record of a nonzero error written after the system block shows the registers and
counters of the state before it. -/
theorem terminateRecord_serviceSI (t : State) (e : Int) (he : e ≠ 0) :
    terminateRecord (serviceSI t) e (-1) = .abnormal e (errorMessage e) none t.IC t.IR t.C t.R
      t.pcb.TTL t.pcb.TTC t.pcb.TLL t.pcb.LLC := by
  obtain ⟨-, -, -, fpcb, fIR, fR, fC, fIC, -⟩ := serviceSI_frame t
  simp [terminateRecord, he, fpcb, fIR, fR, fC, fIC]

/-- The part of the operand-field check that works: for every running state whose fetched
instruction does not start with `H` and has no digit in either operand position, the pass
raises Program Interrupt 2 and terminates the job, the last termination record being
"Operand Error" (the only one when `SI` is 0 or 1), with memory, `R`, `C` and the quota
counters unchanged. -/
theorem operand_field_no_digit (s : State) (RA : Int) (w : Word)
    (hr : Running s) (hfetch : addressMap s s.IC = .ok (s, RA))
    (hinstr : getWord s.M RA = .ok w) (hH : w.c0 ≠ 'H')
    (h2 : isdigit w.c2 = false) (h3 : isdigit w.c3 = false) :
    ∃ s1, loopBody s = .ok (s1, .exit) ∧ s1.PI = 2 ∧ s1.breakFlag = true ∧
      s1.outputFile.getLast? = some (.abnormal 5 "Operand Error" none (s.IC + 1) w s.C s.R
        s.pcb.TTL s.pcb.TTC s.pcb.TLL s.pcb.LLC) ∧
      (s.SI = 0 ∨ s.SI = 1 → s1.outputFile = s.outputFile ++
        [.abnormal 5 "Operand Error" none (s.IC + 1) w s.C s.R
          s.pcb.TTL s.pcb.TTC s.pcb.TLL s.pcb.LLC]) ∧
      s1.M = s.M ∧ s1.R = s.R ∧ s1.C = s.C ∧ s1.pcb = s.pcb := by
  obtain ⟨rb, rPI, rTI, rSI⟩ := hr
  have hTI2 : s.TI ≠ 2 := by rw [rTI]; decide
  obtain ⟨sA, hsA⟩ : ∃ sA : State, sA = { s with IR := w, IC := s.IC + 1 } := ⟨_, rfl⟩
  have hmm := masterMode_program_error { sA with PI := 2 } (by rw [hsA]; exact hTI2)
    (Or.inr rfl)
  have hloop : loopBody s = .ok
      ({ terminate (serviceSI { sA with PI := 2 }) 5 (-1) with breakFlag := true }, .exit) := by
    rw [loopBody_fetch s RA w rPI hfetch hinstr, ← hsA]
    have hc0 : sA.IR.c0 ≠ 'H' := by rw [hsA]; exact hH
    have hc2 : isdigit sA.IR.c2 = false := by rw [hsA]; exact h2
    have hc3 : isdigit sA.IR.c3 = false := by rw [hsA]; exact h3
    simp only [checkOperandField, hc0, ne_eq, not_false_eq_true, if_true, hc2, hc3,
      Bool.not_false, Bool.and_self, hmm]
    rfl
  obtain ⟨fPI, -, fM, fpcb, fIR, fR, fC, fIC, -⟩ := serviceSI_frame { sA with PI := 2 }
  have hR : terminateRecord (serviceSI { sA with PI := 2 }) 5 (-1)
      = .abnormal 5 "Operand Error" none (s.IC + 1) w s.C s.R
        s.pcb.TTL s.pcb.TTC s.pcb.TLL s.pcb.LLC := by
    rw [terminateRecord_serviceSI _ 5 (by decide), hsA]
    rfl
  refine ⟨_, hloop, ?_, rfl, ?_, ?_, ?_, ?_, ?_, ?_⟩
  · show (serviceSI _).PI = 2
    rw [fPI]
  · show (((serviceSI _).outputFile ++ [_]).getLast?) = _
    rw [List.getLast?_append, hR]
    rfl
  · intro hSI
    show (serviceSI _).outputFile ++ [_] = _
    rw [hR, serviceSI_quiet _ (by rw [hsA]; exact hSI), hsA]
  · show (serviceSI _).M = _
    rw [fM, hsA]
  · show (serviceSI _).R = _
    rw [fR, hsA]
  · show (serviceSI _).C = _
    rw [fC, hsA]
  · show (serviceSI _).pcb = _
    rw [fpcb, hsA]

/-- C14, evaluated at operand fields with one digit. The job `LRx2 H` (a letter, then a
digit) passes the operand-field check, which needs both characters to be non-digits, and
`stoi` throws on `x2`: the program ends in an uncaught exception, with no record written.
The job `LR1x H` (a digit, then a letter) passes the check too and `stoi` reads 1: the
instruction is executed as `LR` from virtual address 1, `R` and `TTC` change and no
interrupt is raised. -/
theorem operand_field_one_digit_evaluation :
    (loopBody letterDigitOperandState = .error .uncaughtException) ∧
    (∃ s1, loopBody digitLetterOperandState = .ok (s1, .next) ∧ s1.PI = 0 ∧
      s1.breakFlag = false ∧ s1.outputFile = [] ∧ s1.IR = ⟨'L', 'R', '1', 'x'⟩ ∧
      s1.R = ⟨'H', ' ', ' ', ' '⟩ ∧ s1.pcb.TTC = 1) :=
  ⟨rfl, _, rfl, rfl, rfl, rfl, rfl, rfl, rfl⟩
/-! ## Halt -/

/-- The halt that the dispatch recognises: for every running state with `TTC < TTL` whose
fetched word starts with `H` and a blank, the pass raises System Interrupt 3, writes exactly
one record, the normal one, sets `breakFlag`, leaves `SI = 0`, and changes neither memory,
`R`, `C` nor the quota counters. -/
theorem halt_with_blank (s : State) (RA : Int) (c2 c3 : Char)
    (hr : Running s) (hTTC : s.pcb.TTC < s.pcb.TTL)
    (hfetch : addressMap s s.IC = .ok (s, RA))
    (hinstr : getWord s.M RA = .ok ⟨'H', ' ', c2, c3⟩) :
    loopBody s = .ok ({ s with
        IR := ⟨'H', ' ', c2, c3⟩
        IC := s.IC + 1
        SI := 0
        outputFile := s.outputFile ++ [.normal "No Error"]
        breakFlag := true }, .exit) := by
  obtain ⟨rb, rPI, rTI, rSI⟩ := hr
  have hTI2 : s.TI ≠ 2 := by rw [rTI]; decide
  rw [loopBody_fetch s RA _ rPI hfetch hinstr]
  have hAT : ¬ (s.pcb.TTC ≥ s.pcb.TTL) := not_le.mpr hTTC
  have h30 : (3 : Int) ≠ 0 := by decide
  have h31 : (3 : Int) ≠ 1 := by decide
  have h32 : (3 : Int) ≠ 2 := by decide
  simp only [checkOperandField, ne_eq, not_true_eq_false, if_false, decodeAndExecute, hAT,
    opcode, if_true, masterMode, hTI2, serviceSI, h30, h31, h32, not_false_eq_true, servicePI,
    rPI, terminate, terminateRecord]
  rfl

/-- C15, evaluated at a halt word without the blank. The job `GD20PD20H`, whose card ends
with the `H`, reads and prints `TEST`; its third word is `H` followed by nulls. The
operand-field check takes it for halt (first character `H`) and skips it, the dispatch does
not (it compares the opcode with `H` and a blank), and `stoi` throws on the empty operand:
the program ends in an uncaught exception instead of the normal termination record. -/
theorem halt_without_blank_evaluation :
    (∃ s, executeUserProgram 2 haltWithoutBlankState = .unfinished s ∧ s.IC = 2 ∧
      getWord s.M 72 = .ok ⟨'H', '\x00', '\x00', '\x00'⟩ ∧ s.pcb.TTC = 3 ∧
      s.outputFile = [.line ['T', 'E', 'S', 'T']] ∧
      loopBody s = .error .uncaughtException) ∧
    executeUserProgram 3 haltWithoutBlankState = .failed .uncaughtException :=
  ⟨⟨_, rfl, rfl, rfl, rfl, by decide, rfl⟩, rfl⟩
/-! ## The time quota test -/

/-- The timer half of the quota test: for every running state whose fetch succeeds with a
word that has a two-digit operand or starts with `H`, and with `TTC >= TTL`, the pass raises
the Timer Interrupt and terminates the job with the single record "Time Limit Exceeded"
before anything of the instruction is executed: memory, `R`, `C`, `TTC` and `LLC` are
unchanged and no output line is written. -/
theorem time_limit_pass (s : State) (RA : Int) (w : Word)
    (hr : Running s) (hTTC : s.pcb.TTC ≥ s.pcb.TTL)
    (hfetch : addressMap s s.IC = .ok (s, RA))
    (hinstr : getWord s.M RA = .ok w)
    (hw : w.c0 = 'H' ∨ (isdigit w.c2 = true ∧ isdigit w.c3 = true)) :
    loopBody s = .ok ({ s with
        IR := w
        IC := s.IC + 1
        TI := 2
        outputFile := s.outputFile ++
          [.abnormal 3 "Time Limit Exceeded" none (s.IC + 1) w s.C s.R
            s.pcb.TTL s.pcb.TTC s.pcb.TLL s.pcb.LLC]
        breakFlag := true }, .exit) := by
  obtain ⟨rb, rPI, rTI, rSI⟩ := hr
  rw [loopBody_fetch s RA w rPI hfetch hinstr]
  have hdec : decodeAndExecute { s with IR := w, IC := s.IC + 1 } = .ok ({ s with
        IR := w
        IC := s.IC + 1
        TI := 2
        outputFile := s.outputFile ++
          [.abnormal 3 "Time Limit Exceeded" none (s.IC + 1) w s.C s.R
            s.pcb.TTL s.pcb.TTC s.pcb.TLL s.pcb.LLC]
        breakFlag := true }, .exit) := by
    simp only [decodeAndExecute, hTTC, if_true, masterMode, terminate, terminateRecord]
    rfl
  rcases hw with hH | ⟨h2, h3⟩
  · simp only [checkOperandField, hH, ne_eq, not_true_eq_false, if_false]
    exact hdec
  · rw [checkOperandField_digits _ h2 h3]
    exact hdec

/-- C16, evaluated at a pass with `TTC < TTL` that writes "Time Limit Exceeded". In the job
`GD20 PD20 GD30 PD30 H`, after `PD20` the counters are `TTC = 3` and `TTL = 50` and `SI = 2`
is still set; the next pass fetches `GD30`, its page fault is dispatched, and the system
block of `masterMode` answers `SI = 2` with the record of error 3, "Time Limit Exceeded".
The job is not terminated by it. -/
theorem time_limit_record_evaluation :
    ∃ s s1, executeUserProgram 2 twoLinesState = .unfinished s ∧
      s.pcb.TTC = 3 ∧ s.pcb.TTL = 50 ∧ s.SI = 2 ∧ s.PI = 0 ∧ s.TI = 0 ∧
      s.outputFile = [.line ['T', 'E', 'S', 'T']] ∧
      loopBody s = .ok (s1, .next) ∧ s1.breakFlag = false ∧ s1.TI = 0 ∧
      s1.outputFile =
        [.line ['T', 'E', 'S', 'T'],
         .abnormal 3 "Time Limit Exceeded" none 3 ⟨'G', 'D', '3', '0'⟩ false nullWord 50 3 5 1] :=
  ⟨_, _, rfl, rfl, rfl, rfl, rfl, rfl, by decide, rfl, rfl, rfl, by decide⟩
/-! ## Input and output round trip -/

theorem word_get_set (w : Word) (a b : Nat) (c : Char) (ha : a < 4) (hb : b < 4) :
    (w.set a c).get b = if b = a then c else w.get b := by
  interval_cases a <;> interval_cases b <;> simp [Word.get, Word.set]

theorem word_toList_get (w : Word) :
    w.toList = [w.get 0, w.get 1, w.get 2, w.get 3] := rfl

theorem getWord_setWord_ne (M M1 : Memory) (a b : Int) (w : Word)
    (h : setWord M a w = .ok M1) (hb : b ≠ a) : getWord M1 b = getWord M b := by
  unfold getWord
  cases hidx : addrIndex b with
  | none => rfl
  | some k =>
    have hk : (k.val : Int) = b := by
      simp only [addrIndex] at hidx
      split at hidx
      · cases hidx
        show ((Int.toNat b : Nat) : Int) = b
        omega
      · cases hidx
    simp only
    rw [getWord_setWord_other M M1 a w h k (by rw [hk]; exact hb)]

/-- The words `write` collects are the characters of the block, word by word. -/
theorem collectChars_eq (M : Memory) (RA : Int) (h0 : 0 ≤ RA) (n : Nat) :
    ∀ i : Nat, RA + i + n ≤ 300 →
      collectChars M RA i n = .ok
        (((List.range (4 * n)).map (fun k => charAt M RA (4 * i + k))).filter
          (fun c => c ≠ '\x00')) := by
  induction n with
  | zero => intro i _; rfl
  | succ n ih =>
    intro i hi
    obtain ⟨w, hw⟩ := getWord_of_range M (RA + i) ⟨by omega, by omega⟩
    have hrest := ih (i + 1) (by push_cast; omega)
    have hsplit : List.range (4 * (n + 1))
        = [0, 1, 2, 3] ++ (List.range (4 * n)).map (fun k => 4 + k) := by
      rw [show 4 * (n + 1) = 4 + 4 * n by ring, List.range_add]
      rfl
    have hc : ∀ j : Nat, j < 4 → charAt M RA (4 * i + j) = w.get j := by
      intro j hj
      have h1 : (4 * i + j) / 4 = i := by omega
      have h2 : (4 * i + j) % 4 = j := by omega
      simp only [charAt, h1, h2, hw]
    have hshift : (fun k => charAt M RA (4 * i + (4 + k)))
        = (fun k => charAt M RA (4 * (i + 1) + k)) := by
      funext k
      rw [show 4 * i + (4 + k) = 4 * (i + 1) + k by ring]
    simp only [collectChars, hw, hrest, hsplit, List.map_append, List.map_map,
      List.filter_append, Function.comp_def, hshift]
    have h0' := hc 0 (by decide)
    have h1' := hc 1 (by decide)
    have h2' := hc 2 (by decide)
    have h3' := hc 3 (by decide)
    simp only [Nat.add_zero] at h0'
    simp only [List.map_cons, List.map_nil, Nat.add_zero, h0', h1', h2', h3', word_toList_get]

/-- One assignment of the copy loop of `read` changes one character of the block. -/
theorem charAt_store (M M1 : Memory) (RA : Int) (i : Nat) (c : Char) (w : Word)
    (hw : getWord M (RA + (i / 4 : Nat)) = .ok w)
    (hM1 : setWord M (RA + (i / 4 : Nat)) (w.set (i % 4) c) = .ok M1) (k : Nat) :
    charAt M1 RA k = if k = i then c else charAt M RA k := by
  unfold charAt
  by_cases hq : k / 4 = i / 4
  · rw [hq, getWord_setWord_same M M1 _ _ hM1, hw]
    simp only
    rw [word_get_set w (i % 4) (k % 4) c (Nat.mod_lt _ (by decide)) (Nat.mod_lt _ (by decide))]
    have : k % 4 = i % 4 ↔ k = i := by omega
    simp only [this]
  · have hne : RA + ((k / 4 : Nat) : Int) ≠ RA + ((i / 4 : Nat) : Int) := by
      intro e
      apply hq
      have : ((k / 4 : Nat) : Int) = ((i / 4 : Nat) : Int) := by omega
      exact_mod_cast this
    rw [getWord_setWord_ne M M1 _ _ _ hM1 hne]
    have : k ≠ i := fun e => hq (by rw [e])
    simp only [this, if_false]

/-- The copy loop of `read` over a block that lies in memory: it returns, and the block then
holds the line from position `i` on and is otherwise as before. -/
theorem storeChars_block (RA : Int) (h0 : 0 ≤ RA) (h9 : RA + 9 < 300) (cs : List Char) :
    ∀ (i : Nat) (M : Memory), i + cs.length ≤ 40 →
      ∃ M1, storeChars M RA i cs = .ok M1 ∧
        ∀ k, charAt M1 RA k
          = if i ≤ k ∧ k < i + cs.length then cs.getD (k - i) '\x00' else charAt M RA k := by
  induction cs with
  | nil =>
    intro i M _
    refine ⟨M, rfl, ?_⟩
    intro k
    have : ¬ (i ≤ k ∧ k < i + ([] : List Char).length) := by simp
    rw [if_neg this]
  | cons c cs ih =>
    intro i M hi
    simp only [List.length_cons] at hi
    have hrow : (0 : Int) ≤ RA + ((i / 4 : Nat) : Int) ∧ RA + ((i / 4 : Nat) : Int) < 300 := by
      have : i / 4 ≤ 9 := by omega
      constructor <;> omega
    obtain ⟨w, hw⟩ := getWord_of_range M _ hrow
    obtain ⟨M1, hM1⟩ := setWord_of_range M _ (w.set (i % 4) c) hrow
    obtain ⟨M2, hM2, hchars⟩ := ih (i + 1) M1 (by omega)
    refine ⟨M2, by simp only [storeChars, hw, hM1, hM2], ?_⟩
    intro k
    rw [hchars k, charAt_store M M1 RA i c w hw hM1 k]
    simp only [List.length_cons]
    by_cases hk : k = i
    · subst hk
      have h1 : ¬ (k + 1 ≤ k ∧ k < k + 1 + cs.length) := by omega
      have h2 : k ≤ k ∧ k < k + (cs.length + 1) := by omega
      simp [h1, h2]
    · by_cases hin : i + 1 ≤ k ∧ k < i + 1 + cs.length
      · have h2 : i ≤ k ∧ k < i + (cs.length + 1) := by omega
        rw [if_pos hin, if_pos h2]
        obtain ⟨j, hj⟩ : ∃ j, k - i = j + 1 := ⟨k - i - 1, by omega⟩
        rw [hj, show k - (i + 1) = j by omega]
        rfl
      · have h2 : ¬ (i ≤ k ∧ k < i + (cs.length + 1)) := by omega
        rw [if_neg hin, if_neg h2, if_neg hk]

/-- The non-null characters of a list that is a line without nulls followed by nulls. -/
theorem filter_line_then_nulls (cs : List Char) (hnull : ∀ c ∈ cs, c ≠ '\x00') (n : Nat) :
    ((List.range n).map (fun k => if k < cs.length then cs.getD k '\x00' else '\x00')).filter
      (fun c => c ≠ '\x00') = cs.take n := by
  induction n with
  | zero => simp
  | succ n ih =>
    rw [List.range_succ, List.map_append, List.filter_append, ih, List.take_succ]
    congr 1
    by_cases hn : n < cs.length
    · have hget : cs.getD n '\x00' = cs[n] := by
        simp [List.getD, List.getElem?_eq_getElem hn]
      have hne : cs[n] ≠ '\x00' := hnull _ (List.getElem_mem hn)
      simp [hn, hget, hne, List.getElem?_eq_getElem hn]
    · have : cs[n]? = none := List.getElem?_eq_none (by omega)
      simp [hn, this]
/-- C17 (the property behind scenario A). For every input line of at most 40 characters with
no null character and without the end marker, and every address `RA` with `0 <= RA` and
`RA + 9 < 300` whose ten words `M[RA..RA+9]` are all null: `read RA` returns, `write RA`
after it, with `LLC < TLL`, returns too, and the two together add exactly one record to the
output file, the output line equal to the input line; `breakFlag` is as before. -/
theorem read_write_round_trip (s : State) (RA : Int) (line : List Char)
    (rest : List (List Char))
    (hin : s.inputFile = line :: rest)
    (hlen : line.length ≤ 40)
    (hnull : ∀ c ∈ line, c ≠ '\x00')
    (hend : containsSub ['$', 'E', 'N', 'D'] line = false)
    (h0 : 0 ≤ RA) (h9 : RA + 9 < 300)
    (hempty : ∀ k : Nat, k < 10 → getWord s.M (RA + k) = .ok nullWord)
    (hLLC : s.pcb.LLC < s.pcb.TLL) :
    ∃ s1 s2, read s RA = .ok s1 ∧ write s1 RA = .ok s2 ∧
      s2.outputFile = s.outputFile ++ [.line line] ∧
      s2.breakFlag = s.breakFlag ∧ s2.inputFile = rest ∧ s2.pcb.LLC = s.pcb.LLC + 1 := by
  have htake : line.take 40 = line := List.take_of_length_le hlen
  obtain ⟨M1, hM1, hchars⟩ := storeChars_block RA h0 h9 line 0 s.M (by omega)
  have hblank : ∀ k, k < 40 → charAt s.M RA k = '\x00' := by
    intro k hk
    have := hempty (k / 4) (by omega)
    simp only [charAt, this]
    have h4 : k % 4 < 4 := Nat.mod_lt _ (by decide)
    interval_cases (k % 4) <;> rfl
  have hread : read s RA = .ok { s with inputFile := rest, M := M1 } := by
    unfold read
    rw [hin]
    simp only [hend, htake, hM1]
    rfl
  have hcollect : collectChars M1 RA 0 10 = .ok line := by
    rw [collectChars_eq M1 RA h0 10 0 (by push_cast; omega)]
    have hmap : (List.range (4 * 10)).map (fun k => charAt M1 RA (4 * 0 + k))
        = (List.range 40).map
            (fun k => if k < line.length then line.getD k '\x00' else '\x00') := by
      apply List.map_congr_left
      intro k hk
      have hk40 : k < 40 := List.mem_range.mp hk
      rw [show 4 * 0 + k = k by omega, hchars k]
      by_cases hkl : k < line.length
      · have : 0 ≤ k ∧ k < 0 + line.length := by omega
        rw [if_pos this, if_pos hkl]
        rfl
      · have : ¬ (0 ≤ k ∧ k < 0 + line.length) := by omega
        rw [if_neg this, if_neg hkl, hblank k hk40]
    rw [hmap, filter_line_then_nulls line hnull 40, List.take_of_length_le hlen]
  refine ⟨_, { s with
      inputFile := rest
      M := M1
      pcb := { s.pcb with LLC := s.pcb.LLC + 1 }
      outputFile := s.outputFile ++ [.line line] }, hread, ?_, rfl, rfl, rfl, rfl⟩
  unfold write
  have hnot : ¬ (s.pcb.LLC + 1 > s.pcb.TLL) := by omega
  simp only [hnot, if_false, hcollect]

/-- C17 at the sample job (`TTL = 5`, `TLL = 5`): the line `TEST` read into the empty frame 4
and written from it comes out as the one output line `TEST`. -/
theorem read_write_round_trip_witness :
    ∃ s1 s2, read sampleState 40 = .ok s1 ∧ write s1 40 = .ok s2 ∧
      s2.outputFile = [.line ['T', 'E', 'S', 'T']] ∧ s2.breakFlag = false := by
  obtain ⟨s1, s2, hr, hw, hout, hb, -, -⟩ :=
    read_write_round_trip sampleState 40 ['T', 'E', 'S', 'T'] [] rfl (by decide) (by decide)
      (by decide) (by decide) (by decide)
      (by intro k hk; interval_cases k <;> rfl) (by decide)
  exact ⟨s1, s2, hr, hw, hout, hb⟩
/-! ## Memory accesses stay in bounds -/

/-- C18, evaluated at a ten-word block that leaves memory. In the job `GD20 PD25 H`, page 2
gets frame 29 at the page fault of `GD20`, which reads `TEST` into words 290 and following.
The state after that pass is running and its page table is well formed; the next pass
executes `PD25`, whose operand address is `29 * 10 + 5 = 295`, and `write` reads the ten
words from 295 on, past word 299, the last word of `M`. -/
theorem block_past_memory_evaluation :
    ∃ s, executeUserProgram 1 lastFrameState = .unfinished s ∧
      s.breakFlag = false ∧ s.PI = 0 ∧ s.TI = 0 ∧ s.SI = 1 ∧ wellFormed s = true ∧
      getWord s.M (s.PTR + 2) = .ok ⟨'2', '9', '\x00', '\x00'⟩ ∧
      getWord s.M 71 = .ok ⟨'P', 'D', '2', '5'⟩ ∧
      addressMap s 25 = .ok (s, 295) ∧
      write { s with SI := 2 } 295 = .error .memoryOutOfRange ∧
      loopBody s = .error .memoryOutOfRange :=
  ⟨_, rfl, rfl, rfl, rfl, rfl, by decide, rfl, rfl, rfl, rfl, rfl⟩

/-- What `wellFormed` says, entry by entry. -/
theorem wellFormed_spec (s : State) (h : wellFormed s = true) :
    (0 ≤ s.PTR ∧ s.PTR < 300 ∧ s.PTR % 10 = 0) ∧
    ∀ i : Nat, i < 10 → ∃ w, getWord s.M (s.PTR + i) = .ok w ∧
      (w.c0 = '*' ∨ ∃ f : Nat, f < 30 ∧ cstr w.toList = decimal f) := by
  simp only [wellFormed, Bool.and_eq_true, decide_eq_true_eq, List.all_eq_true,
    List.mem_range] at h
  obtain ⟨⟨⟨h0, h1⟩, h2⟩, hall⟩ := h
  refine ⟨⟨h0, h1, h2⟩, ?_⟩
  intro i hi
  have := hall i hi
  split at this
  · rename_i w hw
    refine ⟨w, hw, ?_⟩
    simp only [entryOK, Bool.or_eq_true, decide_eq_true_eq, List.any_eq_true,
      List.mem_range] at this
    rcases this with h | ⟨f, hf, hc⟩
    · exact Or.inl h
    · exact Or.inr ⟨f, hf, hc⟩
  · cases this

theorem wellFormed_congr (s s1 : State) (hM : s1.M = s.M) (hP : s1.PTR = s.PTR) :
    wellFormed s1 = wellFormed s := by
  simp only [wellFormed, hM, hP]

/-- On a well-formed page table the translator always returns: with a physical address inside
the frame below 30 that the entry of the page names and no interrupt, or with one of its two
interrupts. -/
theorem addressMap_wellFormed (s : State) (hwf : wellFormed s = true) (VA : Int) :
    (∃ (f : Nat) (pte : Word), f < 30 ∧ 0 ≤ VA ∧ VA < 100 ∧
        getWord s.M (s.PTR + VA / 10) = .ok pte ∧ cstr pte.toList = decimal f ∧
        addressMap s VA = .ok (s, (f : Int) * 10 + VA % 10)) ∨
    addressMap s VA = .ok ({ s with PI := 2 }, -1) ∨
    (0 ≤ VA ∧ VA < 100 ∧ addressMap s VA = .ok ({ s with PI := 3 }, -1)) := by
  obtain ⟨-, hentries⟩ := wellFormed_spec s hwf
  by_cases hv : 0 ≤ VA ∧ VA < 100
  · obtain ⟨w, hw, hok⟩ := hentries (VA / 10).toNat (by omega)
    have hidx : (((VA / 10).toNat : Nat) : Int) = VA / 10 := by omega
    rw [hidx] at hw
    rcases hok with hstar | ⟨f, hf, hc⟩
    · exact Or.inr (Or.inr ⟨hv.1, hv.2, addressMap_of_sentinel s VA w hv hw hstar⟩)
    · exact Or.inl ⟨f, w, hf, hv.1, hv.2, hw, hc, addressMap_of_stoi s VA w f hv hw
        (present_of_decimal w f hc) (stoi_entry_decimal w f hc)⟩
  · refine Or.inr (Or.inl ?_)
    simp only [addressMap, hv, if_false]

/-- The operand half of page-fault resolution, with the origin of the frame: the frame the
retried translation goes through is the one the frame search returned. -/
theorem operand_fault_resolved_frame (s s1 : State) (VA : Int) (hTI : s.TI = 0)
    (hPI : s.PI = 3) (hVA : stoi (operandStr s.IR) = some VA) (hv : 0 ≤ VA ∧ VA < 100)
    (h : masterMode s = .ok s1) (hb : s1.breakFlag = false) :
    ∃ (f : Nat) (rest : List Nat), findFrame s.M s.rands = some (f, rest) ∧ f < 30 ∧
      addressMap s1 VA = .ok (s1, (f : Int) * 10 + VA % 10) := by
  obtain ⟨-, -, -, -, hres⟩ := masterMode_resumes s s1 hTI (Or.inr (Or.inr (Or.inr hPI))) h hb
  obtain ⟨hop, t, ht, rfl⟩ := hres (by rw [hPI]; decide)
  obtain ⟨fPI, fTI, fM, fpcb, fIR, fR, fC, fIC, fPTR, frands, finput, fconsole, fSI, fcount⟩ :=
    serviceSI_frame s
  obtain ⟨frame, rest, VA1, old, M1, hfind, hVA1, hold, hM1, rfl⟩ :=
    handlePageFault_pageable (serviceSI s) t (by rw [fIR]; exact hop) ht
  rw [fIR, hVA] at hVA1
  cases hVA1
  have hf30 := (findFrame_some _ _ _ _ hfind).1
  have htext := cstr_sprintfWord old frame hf30
  rw [tdiv_ten VA hv.1] at hM1
  rw [fM, frands] at hfind
  exact ⟨frame, rest, hfind, hf30, addressMap_of_stoi _ VA (sprintfWord old frame) frame hv
    (getWord_setWord_same _ _ _ _ hM1) (present_of_decimal _ frame htext)
    (stoi_entry_decimal _ frame htext)⟩

/-- The value `stoi` reads in two characters lies between -9 and 99. -/
theorem stoi_two_chars_range (a b : Char) (v : Int) (h : stoi [a, b] = some v) :
    -9 ≤ v ∧ v ≤ 99 := by
  have hlen : ((cstr [a, b]).dropWhile isspace).length ≤ 2 :=
    le_trans (List.dropWhile_sublist _).length_le (cstr_length_le [a, b])
  generalize hs : (cstr [a, b]).dropWhile isspace = t at hlen
  simp only [stoi, hs] at h
  cases hbody : afterSign t with
  | nil => simp [hbody] at h
  | cons d tl =>
    simp only [hbody] at h
    split at h
    · have hb := readDigits_lt (d :: tl) 0
      have hbl : (d :: tl).length ≤ t.length := by
        rw [← hbody]; exact afterSign_length_le t
      split at h
      · rename_i hneg
        -- a leading minus sign leaves at most one character for the digits
        have htl : (d :: tl).length ≤ 1 := by
          cases t with
          | nil => simp at hneg
          | cons c rest =>
            simp only [List.head?_cons, Option.some.injEq] at hneg
            simp only [afterSign, hneg, true_or, if_true] at hbody
            rw [← hbody]
            simp only [List.length_cons] at hlen
            omega
        have hp : 10 ^ (d :: tl).length ≤ 10 ^ 1 := Nat.pow_le_pow_right (by decide) htl
        split at h
        · cases h
          have : readDigits 0 (d :: tl) < 10 := by omega
          omega
        · cases h
      · have hp : 10 ^ (d :: tl).length ≤ 10 ^ 2 :=
          Nat.pow_le_pow_right (by decide) (le_trans hbl hlen)
        split at h
        · cases h
          have : readDigits 0 (d :: tl) < 100 := by omega
          omega
        · cases h
    · cases h

/-- The fault handler touches memory only at a page-table entry: with the page table inside
memory it never leaves memory. -/
theorem handlePageFault_in_bounds (s : State) (h0 : 0 ≤ s.PTR) (h9 : s.PTR + 9 < 300) :
    handlePageFault s ≠ .error .memoryOutOfRange := by
  unfold handlePageFault
  split
  · split
    · simp
    · rename_i frame rest hfind
      split
      · simp
      · rename_i VA hVA
        have hr := stoi_two_chars_range _ _ VA hVA
        have hq : 0 ≤ Int.tdiv VA 10 ∧ Int.tdiv VA 10 ≤ 9 := by
          by_cases hneg : 0 ≤ VA
          · rw [tdiv_ten VA hneg]; omega
          · have hpos : 0 ≤ -VA := by omega
            have e : Int.tdiv VA 10 = -(Int.tdiv (-VA) 10) := by
              rw [Int.neg_tdiv, neg_neg]
            rw [e, tdiv_ten (-VA) hpos]
            omega
        dsimp only
        obtain ⟨w, hw⟩ := getWord_of_range s.M (s.PTR + Int.tdiv VA 10) ⟨by omega, by omega⟩
        obtain ⟨M1, hM1⟩ := setWord_of_range s.M (s.PTR + Int.tdiv VA 10)
          (sprintfWord w frame) ⟨by omega, by omega⟩
        simp only [hw, hM1]
        simp
  · simp
theorem masterMode_in_bounds (s : State) (h0 : 0 ≤ s.PTR) (h9 : s.PTR + 9 < 300) :
    masterMode s ≠ .error .memoryOutOfRange := by
  obtain ⟨-, -, -, -, -, -, -, -, fPTR, -⟩ := serviceSI_frame s
  unfold masterMode
  split
  · simp
  · unfold servicePI
    split
    · split
      · simp
      · split
        · simp
        · split
          · have := handlePageFault_in_bounds (serviceSI s) (by rw [fPTR]; exact h0)
              (by rw [fPTR]; exact h9)
            split
            · rename_i e he
              intro hc
              cases hc
              exact this he
            · simp
          · simp
    · simp

theorem read_in_bounds (s : State) (RA : Int) (h0 : 0 ≤ RA) (h9 : RA + 9 < 300) :
    ∃ s1, read s RA = .ok s1 := by
  unfold read
  split
  · exact ⟨_, rfl⟩
  · rename_i line rest hin
    dsimp only
    split
    · exact ⟨_, rfl⟩
    · obtain ⟨M1, hM1, -⟩ := storeChars_block RA h0 h9 (line.take 40) 0 s.M
        (by simp only [List.length_take]; omega)
      simp only [hM1]
      exact ⟨_, rfl⟩

theorem write_in_bounds (s : State) (RA : Int) (h0 : 0 ≤ RA) (h9 : RA + 9 < 300) :
    ∃ s1, write s RA = .ok s1 := by
  unfold write
  dsimp only
  split
  · exact ⟨_, rfl⟩
  · obtain ⟨text, ht⟩ := collectChars_of_range s.M RA 10 0 (by simpa using h0)
      (by push_cast; omega)
    simp only [ht]
    exact ⟨_, rfl⟩

/-- With program interrupt 1 pending the controller always returns. -/
theorem masterMode_opcode_error_returns (s : State) (hPI : s.PI = 1) :
    ∃ s1, masterMode s = .ok s1 := by
  have fPI := (serviceSI_frame s).1
  unfold masterMode
  split
  · exact ⟨_, rfl⟩
  · simp only [servicePI, fPI, hPI, ne_eq, one_ne_zero, not_false_eq_true, if_true]
    exact ⟨_, rfl⟩

/-- The execution of a decoded instruction stays in memory when its operand address does, and
for `GD` and `PD` the ten words from it on. -/
theorem execute_in_bounds (s : State) (op : List Char) (va ra : Int)
    (h0 : 0 ≤ ra) (h1 : ra < 300)
    (hblock : op = ['G', 'D'] ∨ op = ['P', 'D'] → ra + 9 < 300) :
    execute s op va ra ≠ .error .memoryOutOfRange := by
  obtain ⟨w, hw⟩ := getWord_of_range s.M ra ⟨h0, h1⟩
  obtain ⟨M1, hM1⟩ := setWord_of_range s.M ra s.R ⟨h0, h1⟩
  unfold execute
  split
  · simp [hw]
  · split
    · simp [hM1]
    · split
      · simp [hw]
      · split
        · simp
        · split
          · rename_i hGD
            obtain ⟨s1, hs1⟩ := read_in_bounds { s with SI := 1 } ra h0 (hblock (Or.inl hGD))
            simp [hs1]
          · split
            · rename_i hPD
              obtain ⟨s1, hs1⟩ := write_in_bounds { s with SI := 2 } ra h0
                (hblock (Or.inr hPD))
              simp [hs1]
            · obtain ⟨s1, hs1⟩ := masterMode_opcode_error_returns { s with PI := 1 } rfl
              simp [hs1]
theorem decodeAndExecute_in_bounds (s : State) (hwf : wellFormed s = true)
    (hPI : s.PI = 0) (hTI : s.TI = 0)
    (hblock : opcode s.IR = ['G', 'D'] ∨ opcode s.IR = ['P', 'D'] →
      ∀ VA, stoi (operandStr s.IR) = some VA →
        VA % 10 = 0 ∨
        ((∀ pte, getWord s.M (s.PTR + VA / 10) = .ok pte → cstr pte.toList ≠ decimal 29) ∧
          ∀ rest, findFrame s.M s.rands ≠ some (29, rest))) :
    decodeAndExecute s ≠ .error .memoryOutOfRange := by
  obtain ⟨⟨p0, p1, p2⟩, -⟩ := wellFormed_spec s hwf
  have p9 : s.PTR + 9 < 300 := by omega
  have hTI2 : s.TI ≠ 2 := by rw [hTI]; decide
  unfold decodeAndExecute
  dsimp only
  split
  · simp [masterMode]
  · split
    · have := masterMode_in_bounds { s with SI := 3 } p0 p9
      split
      · rename_i e he
        intro hc
        cases hc
        exact this he
      · simp
    · split
      · simp
      · rename_i VA hVA
        have hexec : ∀ (t : State) (f : Nat), f < 30 → 0 ≤ VA → VA < 100 →
            (opcode s.IR = ['G', 'D'] ∨ opcode s.IR = ['P', 'D'] → VA % 10 = 0 ∨ f ≠ 29) →
            execute t (opcode s.IR) VA ((f : Int) * 10 + VA % 10)
              ≠ .error .memoryOutOfRange := by
          intro t f hf hv0 hv1 hcond
          refine execute_in_bounds t _ VA _ (by omega) (by omega) ?_
          intro hop
          rcases hcond hop with h | h <;> omega
        rcases addressMap_wellFormed s hwf VA with ⟨f, pte, hf, hv0, hv1, hpte, hc, hmap⟩ |
          hmap | ⟨hv0, hv1, hmap⟩
        · rw [hmap]
          simp only [hPI, ne_eq, not_true_eq_false, if_false]
          refine hexec s f hf hv0 hv1 ?_
          intro hop
          rcases hblock hop VA hVA with h | ⟨h, -⟩
          · exact Or.inl h
          · refine Or.inr ?_
            intro e
            subst e
            exact h pte hpte hc
        · rw [hmap]
          have hmm := masterMode_program_error { s with PI := 2 } hTI2 (Or.inr rfl)
          simp [hmm]
        · rw [hmap]
          have h30 : (3 : Int) ≠ 0 := by decide
          simp only [ne_eq, h30, not_false_eq_true, if_true]
          have hmm := masterMode_in_bounds { s with PI := 3 } p0 p9
          split
          · rename_i e he
            intro hc
            cases hc
            exact hmm he
          · rename_i s4 hs4
            split
            · simp
            · rename_i hb4
              have hb4' : s4.breakFlag = false := by simpa using hb4
              split
              · obtain ⟨f, rest, hfind, hf, hmap2⟩ :=
                  operand_fault_resolved_frame { s with PI := 3 } s4 VA
                    hTI rfl hVA ⟨hv0, hv1⟩ hs4 hb4'
                rw [hmap2]
                refine hexec s4 f hf hv0 hv1 ?_
                intro hop
                rcases hblock hop VA hVA with h | ⟨-, h⟩
                · exact Or.inl h
                · refine Or.inr ?_
                  intro e
                  subst e
                  exact h rest hfind
              · simp

theorem checkOperandField_in_bounds (s : State) (hwf : wellFormed s = true)
    (hPI : s.PI = 0) (hTI : s.TI = 0)
    (hblock : opcode s.IR = ['G', 'D'] ∨ opcode s.IR = ['P', 'D'] →
      ∀ VA, stoi (operandStr s.IR) = some VA →
        VA % 10 = 0 ∨
        ((∀ pte, getWord s.M (s.PTR + VA / 10) = .ok pte → cstr pte.toList ≠ decimal 29) ∧
          ∀ rest, findFrame s.M s.rands ≠ some (29, rest))) :
    checkOperandField s ≠ .error .memoryOutOfRange := by
  have hTI2 : s.TI ≠ 2 := by rw [hTI]; decide
  have hdec := decodeAndExecute_in_bounds s hwf hPI hTI hblock
  unfold checkOperandField
  split
  · split
    · have hmm := masterMode_program_error { s with PI := 2 } hTI2 (Or.inr rfl)
      simp [hmm]
    · exact hdec
  · exact hdec

/-- The accesses that stay in bounds. For every running state whose page table is well
formed, a pass through the loop body reads and writes no memory word outside `M[0..299]`
(it never ends in the out-of-range fault) unless the fetched instruction is a `GD` or `PD`
whose operand is not a multiple of ten and whose page is in frame 29: it is enough that the
operand is a multiple of ten, or that frame 29 is neither the frame the entry of the
operand's page names nor the frame the frame search returns. -/
theorem loopBody_in_bounds (s : State) (hwf : wellFormed s = true) (hr : Running s)
    (hblock : ∀ RA w, addressMap s s.IC = .ok (s, RA) → getWord s.M RA = .ok w →
      opcode w = ['G', 'D'] ∨ opcode w = ['P', 'D'] →
      ∀ VA, stoi (operandStr w) = some VA →
        VA % 10 = 0 ∨
        ((∀ pte, getWord s.M (s.PTR + VA / 10) = .ok pte → cstr pte.toList ≠ decimal 29) ∧
          ∀ rest, findFrame s.M s.rands ≠ some (29, rest))) :
    loopBody s ≠ .error .memoryOutOfRange := by
  obtain ⟨rb, rPI, rTI, rSI⟩ := hr
  obtain ⟨⟨p0, p1, p2⟩, -⟩ := wellFormed_spec s hwf
  have p9 : s.PTR + 9 < 300 := by omega
  have hTI2 : s.TI ≠ 2 := by rw [rTI]; decide
  rcases addressMap_wellFormed s hwf s.IC with ⟨f, pte, hf, hv0, hv1, -, -, hmap⟩ | hmap |
    ⟨hv0, hv1, hmap⟩
  · obtain ⟨w, hw⟩ := getWord_of_range s.M ((f : Int) * 10 + s.IC % 10)
      ⟨by omega, by omega⟩
    rw [loopBody_fetch s _ w rPI hmap hw]
    exact checkOperandField_in_bounds _
      ((wellFormed_congr s _ rfl rfl).trans hwf) rPI rTI (hblock _ w hmap hw)
  · have hmm := masterMode_program_error { s with PI := 2 } hTI2 (Or.inr rfl)
    unfold loopBody
    rw [hmap]
    simp [hmm]
  · have hmm := masterMode_in_bounds { s with PI := 3 } p0 p9
    have h30 : (3 : Int) ≠ 0 := by decide
    unfold loopBody
    rw [hmap]
    simp only [ne_eq, h30, not_false_eq_true, if_true]
    split
    · rename_i e he
      intro hc
      cases hc
      exact hmm he
    · split <;> simp

/-- The sample job stays in bounds in its first pass: it executes `GD20`, whose operand is a
multiple of ten. -/
theorem loopBody_in_bounds_sample :
    wellFormed sampleState = true ∧ loopBody sampleState ≠ .error .memoryOutOfRange := by
  refine ⟨by decide, loopBody_in_bounds sampleState (by decide) ⟨rfl, rfl, rfl, Or.inl rfl⟩ ?_⟩
  intro RA w h1 h2 _ VA h3
  have e1 : addressMap sampleState sampleState.IC = .ok (sampleState, 70) := rfl
  rw [e1] at h1
  have hRA : RA = 70 := by
    injection h1 with h1
    injection h1 with _ h1
    exact h1.symm
  subst hRA
  have e2 : getWord sampleState.M 70 = .ok ⟨'G', 'D', '2', '0'⟩ := rfl
  rw [e2] at h2
  injection h2 with h2
  subst h2
  have e3 : stoi (operandStr ⟨'G', 'D', '2', '0'⟩) = some 20 := by decide
  rw [e3] at h3
  injection h3 with h3
  subst h3
  exact Or.inl (by decide)

/-! ## The frame the fault handler installs -/

/-- C19, refuted as stated: in the job `GD20 LR20 SR31 SR41 H` the page fault of `SR31` gets
frame 9 and the store goes to word 91, leaving word 90, the first word of the frame, empty;
the page fault of `SR41` then gets frame 9 again. After four passes the entries of pages 3
and 4 both hold frame 9 and the virtual addresses 31 and 41 are the same physical word. -/
theorem shared_frame_counterexample :
    ∃ s, executeUserProgram 4 sharedFrameState = .unfinished s ∧
      wellFormed sharedFrameState = true ∧
      s.console = [⟨4, 20⟩, ⟨9, 31⟩, ⟨9, 41⟩] ∧
      getWord s.M (s.PTR + 3) = .ok ⟨'9', '\x00', '\x00', '\x00'⟩ ∧
      getWord s.M (s.PTR + 4) = .ok ⟨'9', '\x00', '\x00', '\x00'⟩ ∧
      addressMap s 31 = .ok (s, 91) ∧ addressMap s 41 = .ok (s, 91) :=
  ⟨_, rfl, by decide, by decide, rfl, rfl, rfl, rfl⟩

/-- An entry that reads as a decimal text starts with a digit. -/
theorem entry_digit_head (w : Word) (g : Nat) (h : cstr w.toList = decimal g) :
    isdigit w.c0 = true := by
  cases hdec : decimal g with
  | nil => exact absurd hdec (decimal_ne_nil g)
  | cons d tl =>
    rw [cstr_head w d tl (by rw [h, hdec])]
    exact decimal_digits g d (by rw [hdec]; exact List.mem_cons_self _ _)

/-- C19, amended. For every state with a well-formed page table in which the fault handler
installs a frame `f` (the instruction in `IR` is `GD` or `SR` and the handler returns): `f`
lies in `[0, 30)`; the first word `M[f * 10]` of the frame is empty at that time; hence `f`
is not the frame holding the page table, and not the frame of any mapped entry whose first
word has been written. The entry written is the one of the operand's page and reads as the
decimal text of `f`. (A frame installed earlier whose first word is still empty passes the
test and can be installed again.) -/
theorem handlePageFault_frame_choice (s s1 : State) (hwf : wellFormed s = true)
    (hop : opcode s.IR = ['G', 'D'] ∨ opcode s.IR = ['S', 'R'])
    (h : handlePageFault s = .ok s1) :
    ∃ (f : Nat) (VA : Int) (old first : Word),
      f < 30 ∧
      stoi (operandStr s.IR) = some VA ∧
      getWord s.M (s.PTR + Int.tdiv VA 10) = .ok old ∧
      getWord s1.M (s.PTR + Int.tdiv VA 10) = .ok (sprintfWord old f) ∧
      cstr (sprintfWord old f).toList = decimal f ∧
      getWord s.M ((f : Int) * 10) = .ok first ∧ first.c0 = '\x00' ∧
      (f : Int) * 10 ≠ s.PTR ∧
      (∀ (i g : Nat) (w w0 : Word), i < 10 → getWord s.M (s.PTR + i) = .ok w →
        cstr w.toList = decimal g → getWord s.M ((g : Int) * 10) = .ok w0 →
        w0.c0 ≠ '\x00' → g ≠ f) := by
  obtain ⟨frame, rest, VA, old, M1, hfind, hVA, hold, hM1, rfl⟩ :=
    handlePageFault_pageable s s1 hop h
  obtain ⟨hf30, first, hfirst, hempty⟩ := findFrame_some s.M s.rands frame rest hfind
  obtain ⟨-, hentries⟩ := wellFormed_spec s hwf
  refine ⟨frame, VA, old, first, hf30, hVA, hold, getWord_setWord_same _ _ _ _ hM1,
    cstr_sprintfWord old frame hf30, hfirst, hempty, ?_, ?_⟩
  · intro e
    obtain ⟨w, hw, hok⟩ := hentries 0 (by decide)
    rw [show s.PTR + ((0 : Nat) : Int) = (frame : Int) * 10 by rw [e]; simp, hfirst] at hw
    cases hw
    rcases hok with hstar | ⟨g, -, hg⟩
    · rw [hempty] at hstar
      revert hstar
      decide
    · have hd := entry_digit_head first g hg
      rw [hempty] at hd
      revert hd
      decide
  · intro i g w w0 _ _ _ hw0 hne e
    subst e
    rw [hfirst] at hw0
    cases hw0
    exact hne hempty

/-- C19 amended, at the sample job: the fault of `GD20` gets frame 4, whose first word is
empty. -/
theorem handlePageFault_frame_choice_witness :
    ∃ (f : Nat) (first : Word), f < 30 ∧
      getWord faultPendingState.M ((f : Int) * 10) = .ok first ∧ first.c0 = '\x00' ∧
      (f : Int) * 10 ≠ faultPendingState.PTR := by
  obtain ⟨f, VA, old, first, hf, -, -, -, -, hfirst, hempty, hPTR, -⟩ :=
    handlePageFault_frame_choice faultPendingState _ (by decide) (by decide) rfl
  exact ⟨f, first, hf, hfirst, hempty, hPTR⟩
/-! ## A job the time quota does not stop -/

/-- A run that is still going after `a` passes continues from the state it reached. -/
theorem executeUserProgram_add (a b : Nat) :
    ∀ s s1, executeUserProgram a s = .unfinished s1 →
      executeUserProgram (a + b) s = executeUserProgram b s1 := by
  induction a with
  | zero =>
    intro s s1 h
    simp only [executeUserProgram] at h
    split at h
    · cases h
    · cases h
      rw [Nat.zero_add]
  | succ a ih =>
    intro s s1 h
    rw [show a + 1 + b = (a + b) + 1 by omega]
    simp only [executeUserProgram] at h ⊢
    split at h
    · cases h
    · rename_i hb
      rw [if_neg hb]
      cases hl : loopBody s with
      | error e => rw [hl] at h; cases h
      | ok r =>
        obtain ⟨s2, c⟩ := r
        rw [hl] at h
        cases c with
        | exit => cases h
        | next => exact ih s2 s1 h

/-- One pass in the fetch loop: the page fault on the instruction counter is answered by
installing frame 9 for page 2 once more; the job goes on in the same situation with `TTC`
one higher. -/
theorem fetchLoop_pass (s : State) (h : FetchLoop s) (rest : List Nat)
    (hr : s.rands = 9 :: rest) :
    ∃ s1, loopBody s = .ok (s1, .next) ∧ FetchLoop s1 ∧ s1.rands = rest ∧
      s1.pcb.TTC = s.pcb.TTC + 1 ∧ s1.pcb.TTL = s.pcb.TTL := by
  obtain ⟨hb, hPI, hTI, hSI, hIC, hIR, hPTR, ⟨w1, hw1, hstar⟩, ⟨w9, hw9, hnull⟩⟩ := h
  -- the fetch faults
  have hmap : addressMap s s.IC = .ok ({ s with PI := 3 }, -1) := by
    have h1 := addressMap_of_sentinel s 10 w1 (by decide) (by rw [hPTR]; exact hw1) hstar
    conv_lhs => rw [hIC]
    exact h1
  -- the handler finds frame 9 and installs it for page 2
  have hfind : findFrame s.M s.rands = some (9, rest) := by
    have e : w9 = s.M ⟨90, by decide⟩ := by
      have : getWord s.M 90 = .ok (s.M ⟨90, by decide⟩) := rfl
      rw [this] at hw9
      cases hw9
      rfl
    rw [hr]
    have hc : (s.M ⟨allocateFrame 9 * 10, by decide⟩).c0 = '\x00' := by
      rw [← hnull, e]
      rfl
    simp only [findFrame, hc, ne_eq, not_true_eq_false, if_false]
    rfl
  obtain ⟨w2, hw2⟩ := getWord_of_range s.M (s.PTR + Int.tdiv 20 10)
    (by rw [hPTR]; decide)
  obtain ⟨M1, hM1, hmm⟩ := masterMode_operand_fault { s with PI := 3 } 20 w2 9 rest
    (by show s.TI ≠ 2; rw [hTI]; decide) rfl
    (by show opcode s.IR = _ ∨ _; rw [hIR]; exact Or.inl rfl)
    (by show stoi (operandStr s.IR) = _; rw [hIR]; decide)
    hw2 hfind
  obtain ⟨fPI, fTI, fM, fpcb, fIR, fR, fC, fIC, fPTR, frands, finput, fconsole, fSI, fcount⟩ :=
    serviceSI_frame { s with PI := 3 }
  have fbreak := serviceSI_breakFlag { s with PI := 3 } hSI
  have h30 : (3 : Int) ≠ 0 := by decide
  have hM1' : setWord s.M 112 (sprintfWord w2 9) = .ok M1 := by
    have : s.PTR + Int.tdiv 20 10 = 112 := by rw [hPTR]; decide
    rw [← this]
    exact hM1
  refine ⟨{ serviceSI { s with PI := 3 } with
      M := M1
      rands := rest
      console := s.console ++ [⟨9, 20⟩]
      pcb := { s.pcb with TTC := s.pcb.TTC + 1 }
      PI := 0 }, ?_, ?_, rfl, rfl, rfl⟩
  · simp only [loopBody, hmap, ne_eq, h30, not_false_eq_true, if_true, hmm]
    rw [if_neg (by show ¬ ((serviceSI _).breakFlag = true); rw [fbreak]; simp [hb])]
  · refine ⟨?_, rfl, ?_, ?_, ?_, ?_, ?_, ?_, ?_⟩
    · show (serviceSI _).breakFlag = false
      rw [fbreak]; exact hb
    · show (serviceSI _).TI = 0
      rw [fTI]; exact hTI
    · show (serviceSI _).SI ≠ 3
      rw [fSI]; decide
    · show (serviceSI _).IC = 10
      rw [fIC]; exact hIC
    · show (serviceSI _).IR = _
      rw [fIR]; exact hIR
    · show (serviceSI _).PTR = 110
      rw [fPTR]; exact hPTR
    · exact ⟨w1, by show getWord M1 111 = _
                    rw [getWord_setWord_ne s.M M1 112 111 _ hM1' (by decide)]; exact hw1,
        hstar⟩
    · exact ⟨w9, by show getWord M1 90 = _
                    rw [getWord_setWord_ne s.M M1 112 90 _ hM1' (by decide)]; exact hw9,
        hnull⟩

/-- As long as the frame source returns the empty frame 9, the fetch loop goes on: after `n`
more passes the job is still running and `TTC` has grown by `n`. -/
theorem fetchLoop_run (n : Nat) :
    ∀ s, FetchLoop s → s.rands = List.replicate n 9 →
      ∃ s1, executeUserProgram n s = .unfinished s1 ∧ s1.breakFlag = false ∧
        s1.pcb.TTC = s.pcb.TTC + n ∧ s1.pcb.TTL = s.pcb.TTL := by
  induction n with
  | zero =>
    intro s h _
    refine ⟨s, ?_, h.1, by simp, rfl⟩
    simp [executeUserProgram, h.1]
  | succ n ih =>
    intro s h hr
    obtain ⟨s1, hloop, hinv, hrands, hTTC, hTTL⟩ :=
      fetchLoop_pass s h (List.replicate n 9) (by rw [hr]; rfl)
    obtain ⟨s2, hrun, hb2, hTTC2, hTTL2⟩ := ih s1 hinv hrands
    refine ⟨s2, ?_, hb2, by rw [hTTC2, hTTC]; push_cast; ring, by rw [hTTL2, hTTL]⟩
    simp only [executeUserProgram, h.1, Bool.false_eq_true, if_false, hloop]
    exact hrun

/-- C20, evaluated on a job the quota never stops. The job `GD20` ten times with `TTL = 50`
executes its ten instructions and is then in a state with `TTC = 11` from which every pass
faults on the instruction counter (page 1): the handler installs a frame for page 2 and
counts `TTC`, and the pass ends before the time quota is tested. From that state, with a
frame source that returns the empty frame 9 each time, for every `n` the job is still
running after `n` more passes, with `TTC = 11 + n`: the loop does not terminate and `TTC`
passes `TTL + 1`. -/
theorem time_quota_not_enforced :
    ∃ s10, executeUserProgram 10 tenReadsState = .unfinished s10 ∧
      s10.pcb.TTC = 11 ∧ s10.pcb.TTL = 50 ∧
      ∀ n, ∃ s, executeUserProgram n { s10 with rands := List.replicate n 9 } = .unfinished s ∧
        s.breakFlag = false ∧ s.pcb.TTC = 11 + n ∧ s.pcb.TTL = 50 := by
  obtain ⟨s10, h10, hb, hPI, hTI, hSI, hIC, hIR, hPTR, h111, h90, hTTC, hTTL⟩ :
      ∃ s10, executeUserProgram 10 tenReadsState = .unfinished s10 ∧
        s10.breakFlag = false ∧ s10.PI = 0 ∧ s10.TI = 0 ∧ s10.SI = 1 ∧ s10.IC = 10 ∧
        s10.IR = ⟨'G', 'D', '2', '0'⟩ ∧ s10.PTR = 110 ∧
        getWord s10.M 111 = .ok ⟨'*', '\x00', '\x00', '\x00'⟩ ∧
        getWord s10.M 90 = .ok nullWord ∧ s10.pcb.TTC = 11 ∧ s10.pcb.TTL = 50 :=
    ⟨_, rfl, rfl, rfl, rfl, rfl, rfl, rfl, rfl, rfl, rfl, rfl, rfl⟩
  refine ⟨s10, h10, hTTC, hTTL, ?_⟩
  intro n
  have hinv : FetchLoop { s10 with rands := List.replicate n 9 } :=
    ⟨hb, hPI, hTI, by show s10.SI ≠ 3; rw [hSI]; decide, hIC, hIR, hPTR, ⟨_, h111, rfl⟩,
      ⟨_, h90, rfl⟩⟩
  obtain ⟨s, hrun, hbs, hT, hL⟩ := fetchLoop_run n _ hinv rfl
  exact ⟨s, hrun, hbs, by rw [hT]; show s10.pcb.TTC + _ = _; rw [hTTC],
    by rw [hL]; exact hTTL⟩

end BatchOS
